import Mathlib

/-
  Verification of the GraphQL engine's planning and execution layer
  (crates/engine/src/execute/plan.rs) and related metadata-resolution
  stages, via a shallow embedding in Lean 4.

  Conventions:
  * Rust `IndexMap<K, V>` (insertion-ordered map with unique keys) is
    modelled as an association list `List (K × V)`; inserting a fresh key
    appends at the end, as IndexMap does.
  * Rust `Result<T, E>` is modelled as `Except E T`.
  * `serde_json::Value` is modelled by the inductive `JsonValue` below.
  * Machine integers that never overflow in the modelled code paths
    (the join-id counter) are modelled as `Nat`.
-/

set_option autoImplicit false

set_option maxRecDepth 8192

namespace Engine

mutual

/-- Model of `serde_json::Value`: JSON values, given as a mutual inductive
so that structural decidable equality is derivable. -/
inductive JsonValue where
  | null : JsonValue
  | bool (b : Bool) : JsonValue
  | num (n : Int) : JsonValue
  | str (s : String) : JsonValue
  | arr (elems : JsonArr) : JsonValue
  | obj (fields : JsonObj) : JsonValue

/-- Model of a JSON array (spine of `Vec<serde_json::Value>`). -/
inductive JsonArr where
  | nil : JsonArr
  | cons (v : JsonValue) (rest : JsonArr) : JsonArr

/-- Model of a JSON object (spine of `serde_json::Map<String, Value>`). -/
inductive JsonObj where
  | nil : JsonObj
  | cons (key : String) (v : JsonValue) (rest : JsonObj) : JsonObj

end

mutual

def JsonValue.decEq : (a b : JsonValue) → Decidable (a = b)
  | .null, .null => isTrue rfl
  | .bool a, .bool b =>
      match decEq a b with
      | isTrue h => isTrue (by rw [h])
      | isFalse h => isFalse (by intro hc; cases hc; exact h rfl)
  | .num a, .num b =>
      match decEq a b with
      | isTrue h => isTrue (by rw [h])
      | isFalse h => isFalse (by intro hc; cases hc; exact h rfl)
  | .str a, .str b =>
      match decEq a b with
      | isTrue h => isTrue (by rw [h])
      | isFalse h => isFalse (by intro hc; cases hc; exact h rfl)
  | .arr a, .arr b =>
      match JsonArr.decEq a b with
      | isTrue h => isTrue (by rw [h])
      | isFalse h => isFalse (by intro hc; cases hc; exact h rfl)
  | .obj a, .obj b =>
      match JsonObj.decEq a b with
      | isTrue h => isTrue (by rw [h])
      | isFalse h => isFalse (by intro hc; cases hc; exact h rfl)
  | .null, .bool _ => isFalse (by intro h; cases h)
  | .null, .num _ => isFalse (by intro h; cases h)
  | .null, .str _ => isFalse (by intro h; cases h)
  | .null, .arr _ => isFalse (by intro h; cases h)
  | .null, .obj _ => isFalse (by intro h; cases h)
  | .bool _, .null => isFalse (by intro h; cases h)
  | .bool _, .num _ => isFalse (by intro h; cases h)
  | .bool _, .str _ => isFalse (by intro h; cases h)
  | .bool _, .arr _ => isFalse (by intro h; cases h)
  | .bool _, .obj _ => isFalse (by intro h; cases h)
  | .num _, .null => isFalse (by intro h; cases h)
  | .num _, .bool _ => isFalse (by intro h; cases h)
  | .num _, .str _ => isFalse (by intro h; cases h)
  | .num _, .arr _ => isFalse (by intro h; cases h)
  | .num _, .obj _ => isFalse (by intro h; cases h)
  | .str _, .null => isFalse (by intro h; cases h)
  | .str _, .bool _ => isFalse (by intro h; cases h)
  | .str _, .num _ => isFalse (by intro h; cases h)
  | .str _, .arr _ => isFalse (by intro h; cases h)
  | .str _, .obj _ => isFalse (by intro h; cases h)
  | .arr _, .null => isFalse (by intro h; cases h)
  | .arr _, .bool _ => isFalse (by intro h; cases h)
  | .arr _, .num _ => isFalse (by intro h; cases h)
  | .arr _, .str _ => isFalse (by intro h; cases h)
  | .arr _, .obj _ => isFalse (by intro h; cases h)
  | .obj _, .null => isFalse (by intro h; cases h)
  | .obj _, .bool _ => isFalse (by intro h; cases h)
  | .obj _, .num _ => isFalse (by intro h; cases h)
  | .obj _, .str _ => isFalse (by intro h; cases h)
  | .obj _, .arr _ => isFalse (by intro h; cases h)

def JsonArr.decEq : (a b : JsonArr) → Decidable (a = b)
  | .nil, .nil => isTrue rfl
  | .cons v r, .cons v' r' =>
      match JsonValue.decEq v v', JsonArr.decEq r r' with
      | isTrue h1, isTrue h2 => isTrue (by rw [h1, h2])
      | isFalse h1, _ => isFalse (by intro hc; cases hc; exact h1 rfl)
      | _, isFalse h2 => isFalse (by intro hc; cases hc; exact h2 rfl)
  | .nil, .cons _ _ => isFalse (by intro h; cases h)
  | .cons _ _, .nil => isFalse (by intro h; cases h)

def JsonObj.decEq : (a b : JsonObj) → Decidable (a = b)
  | .nil, .nil => isTrue rfl
  | .cons k v r, .cons k' v' r' =>
      match decEq k k', JsonValue.decEq v v', JsonObj.decEq r r' with
      | isTrue h0, isTrue h1, isTrue h2 => isTrue (by rw [h0, h1, h2])
      | isFalse h0, _, _ => isFalse (by intro hc; cases hc; exact h0 rfl)
      | _, isFalse h1, _ => isFalse (by intro hc; cases hc; exact h1 rfl)
      | _, _, isFalse h2 => isFalse (by intro hc; cases hc; exact h2 rfl)
  | .nil, .cons _ _ _ => isFalse (by intro h; cases h)
  | .cons _ _ _, .nil => isFalse (by intro h; cases h)

end

instance : DecidableEq JsonValue := JsonValue.decEq

instance : DecidableEq JsonArr := JsonArr.decEq

instance : DecidableEq JsonObj := JsonObj.decEq

/-- Structural decidable equality for Except results, used to evaluate the
embedding on concrete inputs. -/
instance {ε α : Type} [DecidableEq ε] [DecidableEq α] : DecidableEq (Except ε α) := fun a b =>
  match a, b with
  | .ok x, .ok y =>
    if h : x = y then isTrue (by rw [h])
    else isFalse (by intro hc; cases hc; exact h rfl)
  | .error x, .error y =>
    if h : x = y then isTrue (by rw [h])
    else isFalse (by intro hc; cases hc; exact h rfl)
  | .ok _, .error _ => isFalse (by intro hc; cases hc)
  | .error _, .ok _ => isFalse (by intro hc; cases hc)

/-- Build a JSON object from an association list of fields, in order. -/
def JsonObj.ofList : List (String × JsonValue) → JsonObj
  | [] => .nil
  | (k, v) :: rest => .cons k v (JsonObj.ofList rest)

/-- Model of `gql::http::PathSegment`: a segment of a GraphQL error path.
The engine only constructs field segments (`PathSegment::field(alias)`). -/
inductive PathSegment where
  | field (name : String) : PathSegment
deriving DecidableEq

/-- Model of the engine's per-request error type `error::Error`
(crates/engine/src/execute/error.rs, not under src/): we keep the
constructors the modelled code paths construct or inspect, and an
abstract `ndcError` standing for the remaining per-field failure modes.
The relevant constructor for plan generation is
InternalError(Engine(InternalGeneric { description })). -/
inductive EngineError where
  | internalGeneric (description : String) : EngineError
  | fieldNotFoundInService (field_name : String) : EngineError
  | ndcError (message : String) : EngineError
deriving DecidableEq

/-- Rendered message of an engine error (stand-in for its Display impl). -/
def EngineError.message : EngineError → String
  | .internalGeneric d => d
  | .fieldNotFoundInService f => "field not found in service: " ++ f
  | .ndcError m => m

/-- Model of `gql::http::GraphQLError`: a message plus an optional path. -/
structure GraphQLError where
  message : String
  path : Option (List PathSegment)
deriving DecidableEq

/-- Model of `error::Error::to_graphql_error`: attach the optional path to
the rendered message. -/
def EngineError.to_graphql_error (e : EngineError) (path : Option (List PathSegment)) :
    GraphQLError :=
  { message := e.message, path := path }

/-- Modelled from the spec: `gql::http::Response` (the lang-graphql crate is
not under src/). Per section 6 the response shape is
data: partial-object-or-null plus an errors array. -/
structure Response where
  data : Option (List (String × JsonValue))
  errors : List GraphQLError
deriving DecidableEq

/-- Modelled from the spec: `gql::http::Response::error` — a response whose
data is null and whose sole error is the given one. -/
def Response.error (e : GraphQLError) : Response :=
  { data := none, errors := [e] }

/-- Modelled from the spec: `gql::http::Response::partial` — a response
carrying the accumulated data object and the accumulated errors.
(The source method is named partial; Lean reserves that word.) -/
def Response.partialResp (data : List (String × JsonValue)) (errors : List GraphQLError) :
    Response :=
  { data := some data, errors := errors }

/-- Model of `RootFieldResult` (plan.rs): nullability of the root field plus
its result value or error. -/
structure RootFieldResult where
  is_nullable : Bool
  result : Except EngineError JsonValue
deriving DecidableEq

/-- Model of `ExecuteQueryResult` (plan.rs): the per-alias results of all
root fields, in insertion order. -/
structure ExecuteQueryResult where
  root_fields : List (String × RootFieldResult)
deriving DecidableEq

/-- The loop body of `ExecuteQueryResult::to_graphql_response` (plan.rs):
walks the root-field results in order, accumulating the data object and the
errors array; a failing nullable field contributes null data and one error;
a failing non-nullable field returns immediately with `Response::error`. -/
def toGraphqlResponseGo :
    List (String × RootFieldResult) → List (String × JsonValue) → List GraphQLError → Response
  | [], data, errors => Response.partialResp data errors
  | (fieldAlias, fr) :: rest, data, errors =>
    match fr.result with
    | .ok value => toGraphqlResponseGo rest (data ++ [(fieldAlias, value)]) errors
    | .error e =>
      let path := [PathSegment.field fieldAlias]
      if fr.is_nullable then
        toGraphqlResponseGo rest (data ++ [(fieldAlias, JsonValue.null)])
          (errors ++ [e.to_graphql_error (some path)])
      else
        Response.error (e.to_graphql_error (some path))

/-- Model of `ExecuteQueryResult::to_graphql_response` (plan.rs). -/
def ExecuteQueryResult.to_graphql_response (r : ExecuteQueryResult) : Response :=
  toGraphqlResponseGo r.root_fields [] []

/-
  Request-plan generation (generate_request_plan, plan.rs).

  The per-root-field planners plan_query and plan_mutation translate IR
  into NDC requests; their internals (ndc_ir generation, remote-join
  extraction) are irrelevant to the claims about generate_request_plan, so
  the embedding takes them as function parameters:
    plan_query    : kappa -> Except EngineError nu
    plan_mutation : mu -> Except EngineError (NDCMutationExecution delta pi)
  where kappa / mu are the query / procedure IR types, nu the planned
  query node type, delta the DataConnectorLink type and pi the NDC
  MutationRequest type.
-/

/-- Model of `ast::TypeContainer` as far as the executor reads it: its
nullability flag. -/
structure TypeContainer where
  nullable : Bool
deriving DecidableEq

/-- Model of `ProcessResponseAs` (plan.rs). -/
inductive ProcessResponseAs where
  | object (is_nullable : Bool) : ProcessResponseAs
  | array (is_nullable : Bool) : ProcessResponseAs
  | commandResponse (type_container : TypeContainer) : ProcessResponseAs
deriving DecidableEq

/-- Model of `ProcessResponseAs::is_nullable` (plan.rs). -/
def ProcessResponseAs.is_nullable : ProcessResponseAs → Bool
  | .object n => n
  | .array n => n
  | .commandResponse tc => tc.nullable

/-- Model of `NDCMutationExecution` (plan.rs). The join_locations field is
omitted: resolve_ndc_mutation_execution explicitly ignores it (remote joins
are not handled for mutations). -/
structure NDCMutationExecution (δ π : Type) where
  query : π
  data_connector : δ
  process_response_as : ProcessResponseAs
deriving DecidableEq

/-- Model of `root_field::MutationRootField` (ir/root_field.rs): either the
__typename field or a procedure-based command with IR of type μ. -/
inductive MutationRootFieldIR (μ : Type) where
  | typeName (type_name : String) : MutationRootFieldIR μ
  | procedureBasedCommand (ir : μ) : MutationRootFieldIR μ
deriving DecidableEq

/-- Model of `root_field::RootField`: a query root field (IR type κ) or a
mutation root field. -/
inductive RootFieldIR (κ μ : Type) where
  | queryRootField (ir : κ) : RootFieldIR κ μ
  | mutationRootField (f : MutationRootFieldIR μ) : RootFieldIR κ μ
deriving DecidableEq

/-- Model of `MutationPlan` (plan.rs): mutation executions grouped by data
connector (outer IndexMap, insertion-ordered), plus __typename fields. -/
structure MutationPlan (δ π : Type) where
  nodes : List (δ × List (String × NDCMutationExecution δ π))
  type_names : List (String × String)
deriving DecidableEq

/-- Model of `RequestPlan` (plan.rs). -/
inductive RequestPlan (δ π ν : Type) where
  | queryPlan (qp : List (String × ν)) : RequestPlan δ π ν
  | mutationPlan (mp : MutationPlan δ π) : RequestPlan δ π ν
deriving DecidableEq

/-- The error generate_request_plan raises on mixed query/mutation
operations (the spec's MixedMutationAndQuery plan error). -/
def mixedMutationAndQueryError : EngineError :=
  .internalGeneric "Parsed engine request contains mixed mutation/query operations"

/-- The error generate_request_plan raises on an empty request. -/
def emptyRequestError : EngineError :=
  .internalGeneric "Parsed an empty request"

/-- Model of `mutation_plan.nodes.entry(dc).or_default().insert(alias, p)`:
append to the existing connector group, or open a new group at the end.
(Root-field aliases are unique in a request, so the inner insert appends.) -/
def insertGrouped {δ π : Type} [DecidableEq δ] :
    List (δ × List (String × NDCMutationExecution δ π)) → δ → String →
      NDCMutationExecution δ π → List (δ × List (String × NDCMutationExecution δ π))
  | [], dc, a, p => [(dc, [(a, p)])]
  | (d, fields) :: rest, dc, a, p =>
    if d = dc then (d, fields ++ [(a, p)]) :: rest
    else (d, fields) :: insertGrouped rest dc a p

/-- The loop of `generate_request_plan` (plan.rs), threading the optional
request plan built so far. A query field meets an existing mutation plan
(or vice versa) with the mixed-operations error; otherwise the field is
planned and inserted. -/
def generateRequestPlanGo {κ μ ν δ π : Type} [DecidableEq δ]
    (plan_query : κ → Except EngineError ν)
    (plan_mutation : μ → Except EngineError (NDCMutationExecution δ π)) :
    List (String × RootFieldIR κ μ) → Option (RequestPlan δ π ν) →
      Except EngineError (Option (RequestPlan δ π ν))
  | [], acc => .ok acc
  | (fieldAlias, f) :: rest, acc =>
    match f with
    | .queryRootField ir =>
      match acc with
      | some (.mutationPlan _) => .error mixedMutationAndQueryError
      | some (.queryPlan qp) =>
        match plan_query ir with
        | .error e => .error e
        | .ok node =>
          generateRequestPlanGo plan_query plan_mutation rest
            (some (.queryPlan (qp ++ [(fieldAlias, node)])))
      | none =>
        match plan_query ir with
        | .error e => .error e
        | .ok node =>
          generateRequestPlanGo plan_query plan_mutation rest
            (some (.queryPlan [(fieldAlias, node)]))
    | .mutationRootField mf =>
      match acc with
      | some (.queryPlan _) => .error mixedMutationAndQueryError
      | some (.mutationPlan mp) =>
        match mf with
        | .typeName t =>
          generateRequestPlanGo plan_query plan_mutation rest
            (some (.mutationPlan ⟨mp.nodes, mp.type_names ++ [(fieldAlias, t)]⟩))
        | .procedureBasedCommand ir =>
          match plan_mutation ir with
          | .error e => .error e
          | .ok p =>
            generateRequestPlanGo plan_query plan_mutation rest
              (some (.mutationPlan
                ⟨insertGrouped mp.nodes p.data_connector fieldAlias p, mp.type_names⟩))
      | none =>
        match mf with
        | .typeName t =>
          generateRequestPlanGo plan_query plan_mutation rest
            (some (.mutationPlan ⟨[], [(fieldAlias, t)]⟩))
        | .procedureBasedCommand ir =>
          match plan_mutation ir with
          | .error e => .error e
          | .ok p =>
            generateRequestPlanGo plan_query plan_mutation rest
              (some (.mutationPlan ⟨insertGrouped [] p.data_connector fieldAlias p, []⟩))

/-- Model of `generate_request_plan` (plan.rs): fold the root fields, then
fail on an empty request. -/
def generate_request_plan {κ μ ν δ π : Type} [DecidableEq δ]
    (plan_query : κ → Except EngineError ν)
    (plan_mutation : μ → Except EngineError (NDCMutationExecution δ π))
    (ir : List (String × RootFieldIR κ μ)) : Except EngineError (RequestPlan δ π ν) :=
  match generateRequestPlanGo plan_query plan_mutation ir none with
  | .error e => .error e
  | .ok none => .error emptyRequestError
  | .ok (some p) => .ok p

/-
  Mutation execution (execute_mutation_plan, plan.rs).

  Each mutation root field issues exactly one NDC mutation call
  (resolve_ndc_mutation_execution), which we model by an oracle
    exec : NDCMutationExecution delta pi -> Except EngineError JsonValue.
  To state temporal claims, execution also produces a trace of call
  events; an awaited call contributes adjacent begin/end events before the
  next field is started, which is exactly what the sequential loop of
  execute_mutation_plan does.
-/

/-- An NDC mutation call event: the call for a root-field alias begins or
ends. -/
inductive MutEvent where
  | beginCall (fieldAlias : String) : MutEvent
  | endCall (fieldAlias : String) : MutEvent
deriving DecidableEq

/-- Inner loop of `execute_mutation_plan`: execute the fields of one
connector group sequentially, collecting per-alias results and the call
trace. -/
def executeMutationFields {δ π : Type}
    (exec : NDCMutationExecution δ π → Except EngineError JsonValue) :
    List (String × NDCMutationExecution δ π) →
      List (String × RootFieldResult) × List MutEvent
  | [] => ([], [])
  | (fieldAlias, fp) :: rest =>
    let r := exec fp
    let restOut := executeMutationFields exec rest
    ((fieldAlias, ⟨fp.process_response_as.is_nullable, r⟩) :: restOut.1,
      [MutEvent.beginCall fieldAlias, MutEvent.endCall fieldAlias] ++ restOut.2)

/-- Outer loop of `execute_mutation_plan`: execute the connector groups
sequentially, in insertion order. -/
def executeMutationGroups {δ π : Type}
    (exec : NDCMutationExecution δ π → Except EngineError JsonValue) :
    List (δ × List (String × NDCMutationExecution δ π)) →
      List (String × RootFieldResult) × List MutEvent
  | [] => ([], [])
  | (_, group) :: rest =>
    let groupOut := executeMutationFields exec group
    let restOut := executeMutationGroups exec rest
    (groupOut.1 ++ restOut.1, groupOut.2 ++ restOut.2)

/-- Model of `execute_mutation_plan` (plan.rs): __typename fields answer
with their type name (resolve_type_name) and issue no NDC call; then each
connector group and each field within it executes strictly sequentially. -/
def execute_mutation_plan {δ π : Type}
    (exec : NDCMutationExecution δ π → Except EngineError JsonValue)
    (plan : MutationPlan δ π) : ExecuteQueryResult × List MutEvent :=
  let typeFields : List (String × RootFieldResult) :=
    plan.type_names.map (fun p => (p.1, ⟨false, .ok (JsonValue.str p.2)⟩))
  let groupsOut := executeMutationGroups exec plan.nodes
  (⟨typeFields ++ groupsOut.1⟩, groupsOut.2)

/-- The mutation root fields of a plan in execution order: groups in
insertion order, document order within each group. -/
def MutationPlan.flatFields {δ π : Type} (plan : MutationPlan δ π) :
    List (String × NDCMutationExecution δ π) :=
  plan.nodes.flatMap (fun g => g.2)

/-- The event trace of a list of aliases called strictly sequentially in
that order. -/
def seqTrace (aliases : List String) : List MutEvent :=
  aliases.flatMap (fun a => [MutEvent.beginCall a, MutEvent.endCall a])

/-
  Remote-join id assignment (assign_join_ids / assign_join_id /
  zip_with_join_ids / assign_with_join_ids, plan.rs).

  JoinLocations<T> is described in section 3 of the spec (its defining
  module remote_joins/types.rs is not under src/): a recursive
  insertion-ordered map alias -> { node : Local(kind) | Remote T,
  rest : JoinLocations<T> }. We encode the map spine as its own inductive
  (LocList) so all recursions are structural; a cons cell carries the
  entry key, its join node, the nested rest tree and the remaining
  entries of the same map. RemoteJoin values are an abstract type alpha
  with decidable (structural) equality, exactly what the Rust PartialEq
  on RemoteJoin provides.
-/

/-- Model of `LocationKind` (remote_joins/types.rs, per the spec): a local
join node is either nested data or a local relationship. -/
inductive LocationKind where
  | nestedData : LocationKind
  | localRelationship : LocationKind
deriving DecidableEq

/-- Model of `JoinNode`: a location holds either a local node or a remote
join of type α. -/
inductive JoinNode (α : Type) where
  | localNode (kind : LocationKind) : JoinNode α
  | remoteNode (join : α) : JoinNode α
deriving DecidableEq

mutual

/-- Model of `JoinLocations<α>`: an insertion-ordered map from location
keys to locations. -/
inductive JoinLocations (α : Type) where
  | mk (locations : LocList α) : JoinLocations α

/-- The entry spine of a JoinLocations map: each entry carries its key,
its join node and its nested rest tree. -/
inductive LocList (α : Type) where
  | nil : LocList α
  | cons (key : String) (node : JoinNode α) (rest : JoinLocations α) (tail : LocList α) :
      LocList α

end

/-- Model of `RemoteJoinCounter` (plan.rs): the associative list of remote
joins seen so far with their ids, plus the monotonic counter. The
MonotonicCounter type itself is modelled from the spec as a Nat that
get_next returns and then increments, which is all id assignment needs
(fresh ids are distinct from all previously returned ones). -/
structure RemoteJoinCounter (α : Type) where
  remote_joins : List (α × Nat)
  counter : Nat

/-- Model of `RemoteJoinCounter::new` (plan.rs). -/
def RemoteJoinCounter.new {α : Type} : RemoteJoinCounter α :=
  { remote_joins := [], counter := 0 }

/-- The linear scan of `assign_join_id` (plan.rs): first entry whose remote
join equals the probe. -/
def findAssigned {α : Type} [DecidableEq α] : List (α × Nat) → α → Option Nat
  | [], _ => none
  | (a, i) :: rest, rj => if a = rj then some i else findAssigned rest rj

/-- Model of `assign_join_id` (plan.rs): look the remote join up by
structural equality in the associative list; if absent, hand out the next
counter value and record it. -/
def assign_join_id {α : Type} [DecidableEq α] (remote_join : α) (state : RemoteJoinCounter α) :
    Nat × RemoteJoinCounter α :=
  match findAssigned state.remote_joins remote_join with
  | some id => (id, state)
  | none =>
    (state.counter,
      { remote_joins := state.remote_joins ++ [(remote_join, state.counter)],
        counter := state.counter + 1 })

mutual

/-- Model of `assign_join_ids` (plan.rs): traverse the tree, keeping local
nodes and assigning each remote join its id, threading the counter state. -/
def assign_join_ids {α : Type} [DecidableEq α] :
    JoinLocations α → RemoteJoinCounter α → JoinLocations Nat × RemoteJoinCounter α
  | .mk locations, state =>
    let out := assignLocList locations state
    (.mk out.1, out.2)

/-- The per-entry loop of `assign_join_ids`: the node is translated first,
then the nested rest tree, then the remaining entries. -/
def assignLocList {α : Type} [DecidableEq α] :
    LocList α → RemoteJoinCounter α → LocList Nat × RemoteJoinCounter α
  | .nil, state => (.nil, state)
  | .cons key node rest tail, state =>
    let nodeOut : JoinNode Nat × RemoteJoinCounter α :=
      match node with
      | .localNode kind => (.localNode kind, state)
      | .remoteNode rj =>
        let idOut := assign_join_id rj state
        (.remoteNode idOut.1, idOut.2)
    let restOut := assign_join_ids rest nodeOut.2
    let tailOut := assignLocList tail restOut.2
    (.cons key nodeOut.1 restOut.1 tailOut.1, tailOut.2)

end

/-- Model of `join_ids.locations.swap_remove(&key)` (plan.rs): find the
entry for the key and remove it, returning its payload and the remaining
entries. IndexMap::swap_remove fills the hole with the last entry instead
of shifting, but location keys are unique within a map, so which entry
order the remainder keeps cannot change any later lookup; we keep the
remainder in order. -/
def lookupRemoveKey {β : Type} : LocList β → String →
    Option ((JoinNode β × JoinLocations β) × LocList β)
  | .nil, _ => none
  | .cons k node rest tail, key =>
    if k = key then some ((node, rest), tail)
    else
      match lookupRemoveKey tail key with
      | none => none
      | some (found, tail') => some (found, .cons k node rest tail')

/-- The error of `zip_with_join_ids` when a key is missing from the id
tree (the Rust message interpolates nothing; the braces are literal). -/
def joinKeyNotFoundError : EngineError :=
  .internalGeneric "unexpected; could not find \x7bkey\x7d in join ids tree"

/-- The error of `zip_with_join_ids` when node kinds disagree. -/
def joinNodeMismatchError : EngineError :=
  .internalGeneric "unexpected join node mismatch"

mutual

/-- Model of `zip_with_join_ids` (plan.rs): for every location of the join
tree, find its key in the id tree, require the node kinds to agree, pair
remote joins with their ids, and recurse into rest trees. -/
def zip_with_join_ids {α : Type} :
    JoinLocations α → JoinLocations Nat → Except EngineError (JoinLocations (α × Nat))
  | .mk locations, .mk join_ids =>
    match zipLocList locations join_ids with
    | .error e => .error e
    | .ok out => .ok (.mk out)

/-- The entry loop of `zip_with_join_ids`. -/
def zipLocList {α : Type} :
    LocList α → LocList Nat → Except EngineError (LocList (α × Nat))
  | .nil, _ => .ok .nil
  | .cons key node rest tail, join_ids =>
    match lookupRemoveKey join_ids key with
    | none => .error joinKeyNotFoundError
    | some ((idNode, idRest), join_ids') =>
      let newNode : Except EngineError (JoinNode (α × Nat)) :=
        match node, idNode with
        | .remoteNode rj, .remoteNode id => .ok (.remoteNode (rj, id))
        | .localNode .nestedData, .localNode .nestedData => .ok (.localNode .nestedData)
        | .localNode .localRelationship, .localNode .localRelationship =>
          .ok (.localNode .localRelationship)
        | _, _ => .error joinNodeMismatchError
      match newNode with
      | .error e => .error e
      | .ok n =>
        match zip_with_join_ids rest idRest with
        | .error e => .error e
        | .ok newRest =>
          match zipLocList tail join_ids' with
          | .error e => .error e
          | .ok newTail => .ok (.cons key n newRest newTail)

end

/-- Model of `assign_with_join_ids` (plan.rs): assign ids starting from a
fresh counter state, then zip the id tree back onto the join tree. -/
def assign_with_join_ids {α : Type} [DecidableEq α] (join_locations : JoinLocations α) :
    Except EngineError (JoinLocations (α × Nat)) :=
  let join_ids := (assign_join_ids join_locations RemoteJoinCounter.new).1
  zip_with_join_ids join_locations join_ids

mutual

/-- The remote joins of a tree, in the traversal order of assign_join_ids. -/
def remotesJL {α : Type} : JoinLocations α → List α
  | .mk locations => remotesLL locations

/-- The remote joins of a map spine, in traversal order. -/
def remotesLL {α : Type} : LocList α → List α
  | .nil => []
  | .cons _ node rest tail =>
    (match node with
      | .localNode _ => []
      | .remoteNode rj => [rj]) ++ remotesJL rest ++ remotesLL tail

end

/-- Every remote join of a tree paired with the id assign_join_ids (from a
fresh state, as assign_with_join_ids runs it) gives it. -/
def assignedPairs {α : Type} [DecidableEq α] (jl : JoinLocations α) : List (α × Nat) :=
  (remotesJL jl).zip (remotesJL (assign_join_ids jl RemoteJoinCounter.new).1)

/-- The id recorded for a remote join in the counter state, if any. -/
def lookupId {α : Type} [DecidableEq α] (state : RemoteJoinCounter α) (a : α) : Option Nat :=
  findAssigned state.remote_joins a

/-- Invariant of the join-id counter state: every recorded id is below the
counter, and two recorded entries have equal remote joins exactly when
they have equal ids. -/
def CounterInv {α : Type} [DecidableEq α] (state : RemoteJoinCounter α) : Prop :=
  (∀ p ∈ state.remote_joins, p.2 < state.counter) ∧
    (∀ p ∈ state.remote_joins, ∀ q ∈ state.remote_joins, (p.1 = q.1 ↔ p.2 = q.2))

/-- The list-level restatement of the assignment loop: assign ids to the
remote joins in traversal order, threading the state. -/
def assignList {α : Type} [DecidableEq α] :
    List α → RemoteJoinCounter α → List Nat × RemoteJoinCounter α
  | [], state => ([], state)
  | rj :: rest, state =>
    let idOut := assign_join_id rj state
    let restOut := assignList rest idOut.2
    (idOut.1 :: restOut.1, restOut.2)

/-- Kind agreement of a join node with an id node: local nodes keep their
kind, remote nodes match remote nodes. -/
def nodeKindMatch {α : Type} : JoinNode α → JoinNode Nat → Prop
  | .localNode kind, .localNode kind' => kind = kind'
  | .remoteNode _, .remoteNode _ => True
  | .localNode _, .remoteNode _ => False
  | .remoteNode _, .localNode _ => False

mutual

/-- Shape agreement between a join tree and an id tree: same keys in the
same order, agreeing node kinds, recursively. This is what zipping needs. -/
def alignedJL {α : Type} : JoinLocations α → JoinLocations Nat → Prop
  | .mk locations, .mk ids => alignedLL locations ids

/-- Entry-wise shape agreement of two map spines. -/
def alignedLL {α : Type} : LocList α → LocList Nat → Prop
  | .nil, .nil => True
  | .cons k node rest tail, .cons k' node' rest' tail' =>
    k = k' ∧ nodeKindMatch node node' ∧ alignedJL rest rest' ∧ alignedLL tail tail'
  | .nil, .cons _ _ _ _ => False
  | .cons _ _ _ _, .nil => False

end

/-
  The apollo metadata-resolution stage
  (crates/engine/src/metadata/resolved/stages/apollo/mod.rs).

  The two inputs are HashMaps; we model them as association lists. Their
  iteration order is unspecified in Rust, but every entry the first loop
  can stop at yields a GlobalIdSourceNotDefined error and every entry the
  second loop can stop at yields an ApolloFederationEntitySourceNotDefined
  error, so which error KIND the stage returns does not depend on the
  order, only on which offending entries exist.
-/

/-- Model of `Qualified<T>` for names: a subgraph plus a name. -/
structure QualifiedName where
  subgraph : String
  name : String
deriving DecidableEq

/-- Model of the metadata-resolution error constructors the apollo stage
produces. -/
inductive MetadataError where
  | globalIdSourceNotDefined (object_type : QualifiedName) : MetadataError
  | apolloFederationEntitySourceNotDefined (object_type : QualifiedName) : MetadataError
deriving DecidableEq

/-- First loop of `apollo::resolve`: error on the first type whose model
list is empty. -/
def checkGlobalIdTypes :
    List (QualifiedName × List QualifiedName) → Except MetadataError Unit
  | [] => .ok ()
  | (object_type, model_name_list) :: rest =>
    if model_name_list.isEmpty then .error (.globalIdSourceNotDefined object_type)
    else checkGlobalIdTypes rest

/-- Second loop of `apollo::resolve`: error on the first type with no
entity-source model. -/
def checkApolloEntityTypes :
    List (QualifiedName × Option QualifiedName) → Except MetadataError Unit
  | [] => .ok ()
  | (object_type, model_source) :: rest =>
    match model_source with
    | none => .error (.apolloFederationEntitySourceNotDefined object_type)
    | some _ => checkApolloEntityTypes rest

/-- Model of `apollo::resolve` (stages/apollo/mod.rs): the global-id check
runs first; only if it passes does the entity-source check run. -/
def apollo_resolve (global_id_enabled_types : List (QualifiedName × List QualifiedName))
    (apollo_federation_entity_enabled_types : List (QualifiedName × Option QualifiedName)) :
    Except MetadataError Unit :=
  match checkGlobalIdTypes global_id_enabled_types with
  | .error e => .error e
  | .ok () => checkApolloEntityTypes apollo_federation_entity_enabled_types

/-- Whether a stage result is an ApolloFederationEntitySourceNotDefined
failure. -/
def isApolloEntityErr : Except MetadataError Unit → Bool
  | .error (.apolloFederationEntitySourceNotDefined _) => true
  | _ => false

/-- Whether a stage result is a GlobalIdSourceNotDefined failure. -/
def isGlobalIdErr : Except MetadataError Unit → Bool
  | .error (.globalIdSourceNotDefined _) => true
  | _ => false

/-
  Apollo _service { sdl } execution (execute_query_field_plan, plan.rs,
  the ApolloFederationSelect::ServiceField arm).
-/

/-- The exact preamble literal the executor prepends to the role SDL
(plan.rs): two lines, two-space indent, spaces after the import commas,
then a blank line. -/
def federationSchemaPreamble : String :=
  "extend schema\n  @link(url: \"https://specs.apollo.dev/federation/v2.0\", import: [\"@key\", \"@extends\", \"@external\", \"@shareable\"])\n\n"

/-- The preamble as the claim under scrutiny quotes it: a single line with
no spaces after the import commas. Stated only to compare against the
source literal; not part of the embedding. -/
def claimedFederationPreamble : String :=
  "extend schema @link(url: \"https://specs.apollo.dev/federation/v2.0\", import: [\"@key\",\"@extends\",\"@external\",\"@shareable\"])"

/-- Model of the extended-SDL construction in the ServiceField arm: the
preamble string concatenated with the role's generated SDL. -/
def extended_sdl (sdl : String) : String :=
  federationSchemaPreamble ++ sdl

/-- Boolean string-prefix test via the underlying character lists (used to
state that the SDL value begins with the preamble). -/
def isStrPrefix (p s : String) : Bool :=
  s.data.take p.data.length = p.data

/-- The field loop of the ServiceField arm: a selection-set field named
sdl yields the extended SDL, __typename yields _Service, anything else is
FieldNotFoundInService. Selection-set fields are modelled as pairs of
alias and field-call name. -/
def serviceFieldObject (sdl : String) :
    List (String × String) → Except EngineError (List (String × JsonValue))
  | [] => .ok []
  | (fieldAlias, name) :: rest =>
    if name = "sdl" then
      match serviceFieldObject sdl rest with
      | .error e => .error e
      | .ok fields => .ok ((fieldAlias, JsonValue.str (extended_sdl sdl)) :: fields)
    else if name = "__typename" then
      match serviceFieldObject sdl rest with
      | .error e => .error e
      | .ok fields => .ok ((fieldAlias, JsonValue.str "_Service") :: fields)
    else .error (.fieldNotFoundInService name)

/-- Model of the whole ServiceField arm of execute_query_field_plan: the
root-field result is nullable and carries the object of resolved fields. -/
def execute_service_field (sdl : String) (selection_set : List (String × String)) :
    RootFieldResult :=
  { is_nullable := true,
    result :=
      match serviceFieldObject sdl selection_set with
      | .error e => .error e
      | .ok fields => .ok (JsonValue.obj (JsonObj.ofList fields)) }

/-
  Boolean-expression input-object construction
  (crates/schema/src/boolean_expression.rs,
  build_boolean_expression_input_schema).

  The helpers that live outside src/ (metadata_resolve::mk_name,
  ModelTargetSource::from_model_source, the permission annotation
  builders, and the registration of scalar comparison input types) are
  taken as function parameters in a SchemaBuildHelpers record; each can
  fail, which aborts the whole build exactly as the question-mark
  operator does in the source. relationship_execution_category is
  modelled from the spec (its definition is in the metadata-resolve
  crate, outside src/): the classification is Local exactly when the
  source and target connector names agree and the target capabilities
  advertise relationships support.
-/

/-- Model of `DataConnectorLink` as far as this code path reads it: its
qualified name. -/
structure DataConnectorLink where
  name : QualifiedName
deriving DecidableEq

/-- Model of the relationship capabilities record consulted by the
classification: whether the connector supports relationships. -/
structure RelationshipCapabilities where
  relationships : Bool
deriving DecidableEq

/-- Model of `RelationshipExecutionCategory`. -/
inductive RelationshipExecutionCategory where
  | localCategory : RelationshipExecutionCategory
  | remoteForEach : RelationshipExecutionCategory
deriving DecidableEq

/-- Modelled from the spec: `relationship_execution_category` (defined in
the metadata-resolve crate, not under src/). Per sections 3 and 4.2 and
the glossary, the classification is a pure function of whether the source
and target connector names agree and the target connector advertises the
relationships capability: both together give Local, anything else
RemoteForEach. -/
def relationship_execution_category (source_connector : DataConnectorLink)
    (target_connector : DataConnectorLink)
    (target_source_capabilities : RelationshipCapabilities) :
    RelationshipExecutionCategory :=
  if source_connector.name = target_connector.name ∧
      target_source_capabilities.relationships = true then
    .localCategory
  else
    .remoteForEach

/-- Model of a model source binding as far as this code path reads it: the
data connector it is bound to. -/
structure ModelSource where
  data_connector : DataConnectorLink
deriving DecidableEq

/-- Model of `ModelTargetSource` as far as this code path reads it: the
capabilities relevant to the relationship. -/
structure ModelTargetSource where
  capabilities : RelationshipCapabilities
deriving DecidableEq

/-- Model of the data-connector reference held by an
ObjectBooleanExpressionType: its own name field plus the connector link. -/
structure BoolExprDataConnector where
  name : QualifiedName
  link : DataConnectorLink
deriving DecidableEq

/-- Model of `ComparisonExpressionInfo` as far as this code path reads it:
an opaque payload handed to the comparison-input-type registration. -/
structure ComparisonExprInfo where
  type_name : String
deriving DecidableEq

/-- Model of the operator-name record of the boolean-expression graphql
configuration. -/
structure BoolExprGraphqlConfig where
  and_operator_name : String
  or_operator_name : String
  not_operator_name : String
deriving DecidableEq

/-- Model of `BooleanExpressionInfo` (the graphql field of an
ObjectBooleanExpressionType): graphql type name, operator names, and the
comparable scalar fields. -/
structure BooleanExpressionInfo where
  type_name : String
  graphql_config : BoolExprGraphqlConfig
  scalar_fields : List (String × ComparisonExprInfo)
deriving DecidableEq

/-- Model of `ObjectBooleanExpressionType` as far as this code path reads
it. -/
structure ObjectBooleanExpressionType where
  object_type : QualifiedName
  data_connector : Option BoolExprDataConnector
  graphql : Option BooleanExpressionInfo
deriving DecidableEq

/-- Model of `RelationshipTarget`: a model target (with its name) or a
command target, which this code path skips. -/
inductive RelationshipTargetIR where
  | modelTarget (model_name : QualifiedName) : RelationshipTargetIR
  | commandTarget : RelationshipTargetIR
deriving DecidableEq

/-- Model of a resolved relationship as far as this code path reads it:
its name and its target. -/
structure RelationshipInfo where
  name : String
  target : RelationshipTargetIR
deriving DecidableEq

/-- Model of a resolved model (with permissions) as far as this code path
reads it. -/
structure ModelWithPermissions where
  name : QualifiedName
  data_type : QualifiedName
  source : Option ModelSource
  filter_expression_type : Option ObjectBooleanExpressionType
deriving DecidableEq

/-- Model of an object-type representation as far as this code path reads
it: its relationships, keyed by relationship name. -/
structure ObjectTypeRepresentation where
  relationships : List (String × RelationshipInfo)
deriving DecidableEq

/-- Model of the schema-builder error type (crate::Error) constructors
this code path produces; helper failures are collapsed into otherError. -/
inductive SchemaError where
  | internalTypeNotFound (type_name : QualifiedName) : SchemaError
  | internalModelNotFound (model_name : QualifiedName) : SchemaError
  | internalBooleanExpressionNotFound (type_name : QualifiedName) : SchemaError
  | otherError (message : String) : SchemaError
deriving DecidableEq

/-- Association-list lookup with decidable key equality (first match). -/
def findValue {κ β : Type} [DecidableEq κ] : List (κ × β) → κ → Option β
  | [], _ => none
  | (k, v) :: rest, key => if k = key then some v else findValue rest key

/-- Model of the GDS metadata as far as this code path reads it:
object boolean-expression types, models and object types, each keyed by
qualified name. -/
structure Gds where
  object_boolean_expression_types : List (QualifiedName × ObjectBooleanExpressionType)
  models : List (QualifiedName × ModelWithPermissions)
  object_types : List (QualifiedName × ObjectTypeRepresentation)

/-- Model of `get_object_type_representation` (schema crate, outside
src/): look the object type up in the metadata, internal error when
absent. -/
def get_object_type_representation (gds : Gds) (type_name : QualifiedName) :
    Except SchemaError ObjectTypeRepresentation :=
  match findValue gds.object_types type_name with
  | none => .error (.internalTypeNotFound type_name)
  | some rep => .ok rep

/-- The externally defined helpers build_boolean_expression_input_schema
calls, as parameters: graphql-name validation, comparison-input-type
registration, ModelTargetSource::from_model_source, and the
relationship namespace-annotation builder (whose value the claims never
inspect, only whether it fails). -/
structure SchemaBuildHelpers where
  mk_name : String → Except SchemaError String
  scalar_comparison_type : ComparisonExprInfo → Except SchemaError String
  from_model_source : ModelSource → RelationshipInfo → Except SchemaError ModelTargetSource
  relationship_namespace_annotations :
    ModelWithPermissions → RelationshipInfo → Except SchemaError Unit

/-- The annotation payload of an input field, mirroring
types::ModelFilterArgument with the FilterRelationshipAnnotation data the
claims inspect. -/
inductive ModelFilterArgument where
  | notOp : ModelFilterArgument
  | andOp : ModelFilterArgument
  | orOp : ModelFilterArgument
  | comparisonField (field_name : String) (object_type : QualifiedName) : ModelFilterArgument
  | relationshipField (relationship_name : String) (target_model_name : QualifiedName) :
      ModelFilterArgument
deriving DecidableEq

/-- An input field of the boolean-expression input object: its annotation
payload and the graphql type name it points at. -/
structure InputFieldEntry where
  argument : ModelFilterArgument
  type_name : String
deriving DecidableEq

/-- Whether an input-field entry is a relationship filter field. -/
def InputFieldEntry.isRelationshipField (e : InputFieldEntry) : Bool :=
  match e.argument with
  | .relationshipField _ _ => true
  | _ => false

/-- Model of `input_fields.insert` on the BTreeMap: replace the value of
an existing key, otherwise add the key. (The BTreeMap orders keys; we
keep first-insertion order, which preserves exactly the key-to-value
association the claims are about.) -/
def insertField : List (String × InputFieldEntry) → String → InputFieldEntry →
    List (String × InputFieldEntry)
  | [], key, v => [(key, v)]
  | (k, v') :: rest, key, v =>
    if k = key then (key, v) :: rest else (k, v') :: insertField rest key v

/-- The loop body of the relationships loop of
build_boolean_expression_input_schema, for one relationship: ok none when
the field is skipped, ok (some entry) when it is added, error when the
body's fallible calls fail. The checks run in source order: model target,
model lookup, target object-type representation, presence of the source
boolean expression's data connector and of the target model source,
ModelTargetSource::from_model_source, Local classification, connector
name equality, target filter-expression graphql presence, namespace
annotations. -/
def relationship_filter_field (gds : Gds) (helpers : SchemaBuildHelpers)
    (obe : ObjectBooleanExpressionType) (relationship : RelationshipInfo) :
    Except SchemaError (Option InputFieldEntry) :=
  match relationship.target with
  | .commandTarget => .ok none
  | .modelTarget model_name =>
    match findValue gds.models model_name with
    | none => .error (.internalModelNotFound model_name)
    | some target_model =>
      match get_object_type_representation gds target_model.data_type with
      | .error e => .error e
      | .ok _target_rep =>
        match obe.data_connector, target_model.source with
        | some local_data_connector, some target_source =>
          match helpers.from_model_source target_source relationship with
          | .error e => .error e
          | .ok target_model_source =>
            match relationship_execution_category local_data_connector.link
                target_source.data_connector target_model_source.capabilities with
            | .remoteForEach => .ok none
            | .localCategory =>
              if target_source.data_connector.name = local_data_connector.name then
                match target_model.filter_expression_type.bind (fun t => t.graphql) with
                | none => .ok none
                | some target_filter_expression =>
                  match helpers.relationship_namespace_annotations target_model relationship with
                  | .error e => .error e
                  | .ok () =>
                    .ok (some
                      { argument := .relationshipField relationship.name target_model.name,
                        type_name := target_filter_expression.type_name })
              else .ok none
        | _, _ => .ok none

/-- The relationships loop of build_boolean_expression_input_schema. -/
def relationshipsLoop (gds : Gds) (helpers : SchemaBuildHelpers)
    (obe : ObjectBooleanExpressionType) :
    List (String × RelationshipInfo) → List (String × InputFieldEntry) →
      Except SchemaError (List (String × InputFieldEntry))
  | [], fields => .ok fields
  | (rel_name, relationship) :: rest, fields =>
    match relationship_filter_field gds helpers obe relationship with
    | .error e => .error e
    | .ok none => relationshipsLoop gds helpers obe rest fields
    | .ok (some entry) =>
      relationshipsLoop gds helpers obe rest (insertField fields rel_name entry)

/-- The scalar (column) fields loop of
build_boolean_expression_input_schema. -/
def scalarFieldsLoop (helpers : SchemaBuildHelpers) (obe : ObjectBooleanExpressionType) :
    List (String × ComparisonExprInfo) → List (String × InputFieldEntry) →
      Except SchemaError (List (String × InputFieldEntry))
  | [], fields => .ok fields
  | (field_name, comparison) :: rest, fields =>
    match helpers.mk_name field_name with
    | .error e => .error e
    | .ok field_graphql_name =>
      match helpers.scalar_comparison_type comparison with
      | .error e => .error e
      | .ok registered_type_name =>
        scalarFieldsLoop helpers obe rest
          (insertField fields field_graphql_name
            { argument := .comparisonField field_name obe.object_type,
              type_name := registered_type_name })

/-- Model of `build_boolean_expression_input_schema`
(schema/src/boolean_expression.rs): look the boolean-expression type up,
require its graphql info, insert the _not/_and/_or operator fields, then
the comparable scalar fields, then the relationship filter fields. The
result is the input object's field map. -/
def build_boolean_expression_input_schema (gds : Gds) (helpers : SchemaBuildHelpers)
    (type_name : String) (gds_type_name : QualifiedName) :
    Except SchemaError (List (String × InputFieldEntry)) :=
  match findValue gds.object_boolean_expression_types gds_type_name with
  | none => .error (.internalTypeNotFound gds_type_name)
  | some object_boolean_expression_type =>
    match object_boolean_expression_type.graphql with
    | none => .error (.internalBooleanExpressionNotFound gds_type_name)
    | some boolean_expression_info =>
      let fields0 := insertField []
        boolean_expression_info.graphql_config.not_operator_name
        { argument := .notOp, type_name := type_name }
      let fields1 := insertField fields0
        boolean_expression_info.graphql_config.and_operator_name
        { argument := .andOp, type_name := type_name }
      let fields2 := insertField fields1
        boolean_expression_info.graphql_config.or_operator_name
        { argument := .orOp, type_name := type_name }
      match get_object_type_representation gds
          object_boolean_expression_type.object_type with
      | .error e => .error e
      | .ok object_type_representation =>
        match scalarFieldsLoop helpers object_boolean_expression_type
            boolean_expression_info.scalar_fields fields2 with
        | .error e => .error e
        | .ok fields3 =>
          relationshipsLoop gds helpers object_boolean_expression_type
            object_type_representation.relationships fields3

/-- The conditions of claim C7 for one relationship against one boolean
expression type: the source boolean expression has a data connector, the
target model has a source, the relationship classifies as Local, the
connector names agree, and the target model has a filter-expression type
with a graphql name. -/
def relationshipConditions (helpers : SchemaBuildHelpers)
    (obe : ObjectBooleanExpressionType) (relationship : RelationshipInfo)
    (target_model : ModelWithPermissions) : Prop :=
  ∃ local_data_connector target_source target_model_source,
    obe.data_connector = some local_data_connector ∧
    target_model.source = some target_source ∧
    helpers.from_model_source target_source relationship = .ok target_model_source ∧
    relationship_execution_category local_data_connector.link
      target_source.data_connector target_model_source.capabilities = .localCategory ∧
    target_source.data_connector.name = local_data_connector.name ∧
    (target_model.filter_expression_type.bind (fun t => t.graphql)).isSome = true

/-
  Derived views of executor results used to state the claims, plus
  concrete instances that the witness and counterexample theorems
  evaluate the embedding on.
-/

/-- A root field can fail only if it is nullable (holds of every field of
a result in which no failing field is non-nullable). -/
def RootFieldResult.failNullable (fr : RootFieldResult) : Bool :=
  match fr.result with
  | .ok _ => true
  | .error _ => fr.is_nullable

/-- The data entry a root-field result contributes when no non-nullable
field fails: its value on success, null on a (nullable) failure. -/
def rootFieldDataValue (p : String × RootFieldResult) : String × JsonValue :=
  (p.1,
    match p.2.result with
    | .ok v => v
    | .error _ => JsonValue.null)

/-- The errors entry a root-field result contributes: one error with the
field's alias as path on failure, nothing on success. -/
def rootFieldErrorEntry (p : String × RootFieldResult) : Option GraphQLError :=
  match p.2.result with
  | .ok _ => none
  | .error e => some (e.to_graphql_error (some [PathSegment.field p.1]))

/-- Concrete result with a failing non-nullable root field next to a
successful one. -/
def w1_res : ExecuteQueryResult :=
  { root_fields :=
      [("ok1", { is_nullable := true, result := .ok (JsonValue.num 1) }),
       ("bad", { is_nullable := false, result := .error (.ndcError "boom") })] }

/-- Concrete result with a failing nullable root field between successful
siblings. -/
def w2_res : ExecuteQueryResult :=
  { root_fields :=
      [("good", { is_nullable := false, result := .ok (JsonValue.num 7) }),
       ("flaky", { is_nullable := true, result := .error (.ndcError "nope") }),
       ("tail", { is_nullable := true, result := .ok (JsonValue.str "t") })] }

/-- Trivial query planner over a unit IR, for concrete instances. -/
def unitPlanQuery : Unit → Except EngineError Unit := fun _ => .ok ()

/-- Concrete mutation planner: the procedure IR is the connector name the
planned execution is bound to (empty NDC request payload). -/
def connPlanMutation : String → Except EngineError (NDCMutationExecution String Unit) :=
  fun connector => .ok
    { query := (), data_connector := connector,
      process_response_as := .commandResponse { nullable := true } }

/-- Concrete mixed request: one query root field, one mutation root
field. -/
def w3_mixed_ir : List (String × RootFieldIR Unit String) :=
  [("q", .queryRootField ()), ("m", .mutationRootField (.procedureBasedCommand "c1"))]

/-- Concrete all-query request with two root fields. -/
def w3_query_ir : List (String × RootFieldIR Unit String) :=
  [("q1", .queryRootField ()), ("q2", .queryRootField ())]

/-- Concrete all-mutation request with two root fields. -/
def w3_mutation_ir : List (String × RootFieldIR Unit String) :=
  [("m1", .mutationRootField (.procedureBasedCommand "c1")),
   ("m2", .mutationRootField (.procedureBasedCommand "c2"))]

/-- Concrete mutation request whose document order interleaves two
connectors: a on c1, b on c2, c on c1. -/
def c4_ir : List (String × RootFieldIR Unit String) :=
  [("a", .mutationRootField (.procedureBasedCommand "c1")),
   ("b", .mutationRootField (.procedureBasedCommand "c2")),
   ("c", .mutationRootField (.procedureBasedCommand "c1"))]

/-- The mutation plan generate_request_plan builds for c4_ir. -/
def c4_mp : MutationPlan String Unit :=
  match generate_request_plan unitPlanQuery connPlanMutation c4_ir with
  | .ok (.mutationPlan mp) => mp
  | _ => { nodes := [], type_names := [] }

/-- Concrete NDC oracle for c4: every mutation call succeeds with null. -/
def c4_exec : NDCMutationExecution String Unit → Except EngineError JsonValue :=
  fun _ => .ok JsonValue.null

/-- The NDC call trace of executing the c4 plan. -/
def c4_trace : List MutEvent :=
  (execute_mutation_plan c4_exec c4_mp).2

/-- Concrete same-connector mutation request [a, b, c], all on c1. -/
def w4_ir : List (String × RootFieldIR Unit String) :=
  [("a", .mutationRootField (.procedureBasedCommand "c1")),
   ("b", .mutationRootField (.procedureBasedCommand "c1")),
   ("c", .mutationRootField (.procedureBasedCommand "c1"))]

/-- Concrete mutation planner for the c5 scenario: the procedure IR is the
NDC request payload, both fields bound to connector c1, non-nullable
command responses. -/
def c5_plan_mutation : String → Except EngineError (NDCMutationExecution String String) :=
  fun ir => .ok
    { query := ir, data_connector := "c1",
      process_response_as := .commandResponse { nullable := false } }

/-- Concrete request [insertA, insertB] in document order. -/
def c5_ir : List (String × RootFieldIR Unit String) :=
  [("insertA", .mutationRootField (.procedureBasedCommand "A")),
   ("insertB", .mutationRootField (.procedureBasedCommand "B"))]

/-- The mutation plan generate_request_plan builds for c5_ir. -/
def c5_mp : MutationPlan String String :=
  match generate_request_plan unitPlanQuery c5_plan_mutation c5_ir with
  | .ok (.mutationPlan mp) => mp
  | _ => { nodes := [], type_names := [] }

/-- Concrete NDC oracle for c5: the insertA request fails, everything else
succeeds. -/
def c5_exec : NDCMutationExecution String String → Except EngineError JsonValue :=
  fun p => if p.query = "A" then .error (.ndcError "insertA failed") else .ok (JsonValue.str "ok")

/-- Results and trace of executing the c5 plan. -/
def c5_out : ExecuteQueryResult × List MutEvent :=
  execute_mutation_plan c5_exec c5_mp

/-- The GraphQL response assembled from the c5 execution. -/
def c5_response : Response :=
  c5_out.1.to_graphql_response

/-- Concrete join tree with two structurally equal remote joins (keys x
and y) and a distinct one (key z). -/
def c6_tree : JoinLocations String :=
  .mk (.cons "x" (.remoteNode "J") (.mk .nil)
    (.cons "y" (.remoteNode "J") (.mk .nil)
      (.cons "z" (.remoteNode "K") (.mk .nil) .nil)))

/-- Concrete offending inputs for the apollo stage: one type with an empty
global-id model list AND one type with no entity source. -/
def c8_g : List (QualifiedName × List QualifiedName) :=
  [({ subgraph := "s", name := "T1" }, [])]

/-- The entity-source map of the c8 scenario. -/
def c8_a : List (QualifiedName × Option QualifiedName) :=
  [({ subgraph := "s", name := "T2" }, none)]

/-- Shorthand for qualified names in the default subgraph of the concrete
C7 instance. -/
def qn (s : String) : QualifiedName :=
  { subgraph := "s", name := s }

/-- Concrete target-side boolean expression type (the filter-expression
type of the target model), with a graphql name. -/
def w7_target_obe : ObjectBooleanExpressionType :=
  { object_type := qn "Article",
    data_connector := some { name := qn "db", link := { name := qn "db" } },
    graphql := some
      { type_name := "Article_bool_exp",
        graphql_config :=
          { and_operator_name := "_and", or_operator_name := "_or",
            not_operator_name := "_not" },
        scalar_fields := [] } }

/-- Concrete graphql info of the source boolean expression type. -/
def w7_info : BooleanExpressionInfo :=
  { type_name := "Author_bool_exp",
    graphql_config :=
      { and_operator_name := "_and", or_operator_name := "_or",
        not_operator_name := "_not" },
    scalar_fields := [("id", { type_name := "Int_comparison_exp" })] }

/-- Concrete source boolean expression type under construction. -/
def w7_obe : ObjectBooleanExpressionType :=
  { object_type := qn "Author",
    data_connector := some { name := qn "db", link := { name := qn "db" } },
    graphql := some w7_info }


/-- Concrete target model bound to connector db with a filter-expression
type. -/
def w7_model : ModelWithPermissions :=
  { name := qn "Articles", data_type := qn "Article",
    source := some { data_connector := { name := qn "db" } },
    filter_expression_type := some w7_target_obe }

/-- The articles relationship of the concrete C7 instance. -/
def w7_rel : RelationshipInfo :=
  { name := "articles", target := .modelTarget (qn "Articles") }

/-- Concrete object-type representation of the source type. -/
def w7_rep : ObjectTypeRepresentation :=
  { relationships := [("articles", w7_rel)] }

/-- Concrete GDS metadata for the C7 instance. -/
def w7_gds : Gds :=
  { object_boolean_expression_types := [(qn "Author_bool_exp", w7_obe)],
    models := [(qn "Articles", w7_model)],
    object_types := [(qn "Author", w7_rep), (qn "Article", { relationships := [] })] }

/-- Concrete helper functions for the C7 instance: names validate as
themselves, comparison types register by payload name, the target source
has the relationships capability, annotations succeed. -/
def w7_helpers : SchemaBuildHelpers :=
  { mk_name := fun s => .ok s,
    scalar_comparison_type := fun c => .ok c.type_name,
    from_model_source := fun _ _ => .ok { capabilities := { relationships := true } },
    relationship_namespace_annotations := fun _ _ => .ok () }

/-- The input-field map the concrete C7 instance builds. -/
def w7_fields : List (String × InputFieldEntry) :=
  match build_boolean_expression_input_schema w7_gds w7_helpers "Author_bool_exp"
      (qn "Author_bool_exp") with
  | .ok fields => fields
  | .error _ => []

/-
  ==================  Theorems  ==================
-/

/-- If the remaining root fields contain a failing non-nullable one, the
assembly loop ends in a Response.error, whatever was accumulated. -/
theorem toGraphqlResponseGo_nonnullable (l : List (String × RootFieldResult))
    (a : String) (fr : RootFieldResult) (e : EngineError)
    (ha : (a, fr) ∈ l) (he : fr.result = .error e) (hn : fr.is_nullable = false) :
    ∀ data errors, ∃ ge, toGraphqlResponseGo l data errors = Response.error ge := by
  induction l with
  | nil => cases ha
  | cons hd tl ih =>
    intro data errors
    obtain ⟨b, fr'⟩ := hd
    rcases List.mem_cons.mp ha with heq | hmem
    · injection heq with hb hf
      subst hb
      subst hf
      refine ⟨e.to_graphql_error (some [PathSegment.field a]), ?_⟩
      simp [toGraphqlResponseGo, he, hn]
    · cases hres : fr'.result with
      | ok v =>
        simpa [toGraphqlResponseGo, hres] using ih hmem _ _
      | error e' =>
        cases hnul : fr'.is_nullable with
        | true =>
          simpa [toGraphqlResponseGo, hres, hnul] using ih hmem _ _
        | false =>
          refine ⟨e'.to_graphql_error (some [PathSegment.field b]), ?_⟩
          simp [toGraphqlResponseGo, hres, hnul]

/-- If every failing root field among the remaining ones is nullable, the
assembly loop returns the accumulated data extended field by field (null
for failures) and the accumulated errors extended by one pathed error per
failure. -/
theorem toGraphqlResponseGo_all_nullable (l : List (String × RootFieldResult))
    (h : ∀ p ∈ l, p.2.failNullable = true) :
    ∀ data errors,
      toGraphqlResponseGo l data errors =
        Response.partialResp (data ++ l.map rootFieldDataValue)
          (errors ++ l.filterMap rootFieldErrorEntry) := by
  induction l with
  | nil => intro data errors; simp [toGraphqlResponseGo]
  | cons hd tl ih =>
    intro data errors
    obtain ⟨a, fr⟩ := hd
    have hhd := h _ (List.mem_cons_self _ _)
    have htl := fun p hp => h p (List.mem_cons_of_mem _ hp)
    cases hres : fr.result with
    | ok v =>
      rw [show toGraphqlResponseGo ((a, fr) :: tl) data errors
          = toGraphqlResponseGo tl (data ++ [(a, v)]) errors by
        simp [toGraphqlResponseGo, hres]]
      rw [ih htl]
      simp [rootFieldDataValue, rootFieldErrorEntry, hres]
    | error e =>
      have hn : fr.is_nullable = true := by
        simpa [RootFieldResult.failNullable, hres] using hhd
      rw [show toGraphqlResponseGo ((a, fr) :: tl) data errors
          = toGraphqlResponseGo tl (data ++ [(a, JsonValue.null)])
              (errors ++ [e.to_graphql_error (some [PathSegment.field a])]) by
        simp [toGraphqlResponseGo, hres, hn]]
      rw [ih htl]
      simp [rootFieldDataValue, rootFieldErrorEntry, hres]

/-- C1: for every executed request result, if some root field's result is
an error and that field is non-nullable, then the assembled GraphQL
response has data equal to null and contains exactly one error; the
results of all other root fields, successful or failed, are not
included. -/
theorem nonnullable_failure_nullifies_response (r : ExecuteQueryResult) (a : String)
    (fr : RootFieldResult) (e : EngineError) (ha : (a, fr) ∈ r.root_fields)
    (he : fr.result = .error e) (hn : fr.is_nullable = false) :
    r.to_graphql_response.data = none ∧ ∃ ge, r.to_graphql_response.errors = [ge] := by
  obtain ⟨ge, hge⟩ := toGraphqlResponseGo_nonnullable r.root_fields a fr e ha he hn [] []
  unfold ExecuteQueryResult.to_graphql_response
  rw [hge]
  exact ⟨rfl, ge, rfl⟩

/-- Witness for C1 on the concrete w1_res. -/
theorem nonnullable_failure_nullifies_response_witness :
    ("bad", ({ is_nullable := false, result := .error (.ndcError "boom") } : RootFieldResult))
        ∈ w1_res.root_fields ∧
      (w1_res.to_graphql_response.data = none ∧
        ∃ ge, w1_res.to_graphql_response.errors = [ge]) :=
  ⟨by decide,
    nonnullable_failure_nullifies_response w1_res "bad"
      { is_nullable := false, result := .error (.ndcError "boom") }
      (.ndcError "boom") (by decide) rfl rfl⟩

/-- C2: for every executed request result in which every failing root
field is nullable, the assembled response maps each failing alias to
null, keeps every successful sibling's data in order, and appends exactly
one error per failing field whose path names that field's alias. -/
theorem nullable_failures_contained (r : ExecuteQueryResult)
    (h : ∀ p ∈ r.root_fields, p.2.failNullable = true) :
    r.to_graphql_response =
      Response.partialResp (r.root_fields.map rootFieldDataValue)
        (r.root_fields.filterMap rootFieldErrorEntry) := by
  unfold ExecuteQueryResult.to_graphql_response
  rw [toGraphqlResponseGo_all_nullable r.root_fields h [] []]
  simp

/-- Witness for C2 on the concrete w2_res. -/
theorem nullable_failures_contained_witness :
    (∀ p ∈ w2_res.root_fields, p.2.failNullable = true) ∧
      w2_res.to_graphql_response =
        Response.partialResp (w2_res.root_fields.map rootFieldDataValue)
          (w2_res.root_fields.filterMap rootFieldErrorEntry) :=
  ⟨by decide, nullable_failures_contained w2_res (by decide)⟩

/-- The global-id loop errors (with a GlobalIdSourceNotDefined) exactly
when some entry has an empty model list, and succeeds otherwise. -/
theorem checkGlobalIdTypes_spec (g : List (QualifiedName × List QualifiedName)) :
    (isGlobalIdErr (checkGlobalIdTypes g) = true ↔ ∃ p ∈ g, p.2 = []) ∧
      (checkGlobalIdTypes g = .ok () ↔ ¬ ∃ p ∈ g, p.2 = []) := by
  induction g with
  | nil => simp [checkGlobalIdTypes, isGlobalIdErr]
  | cons hd tl ih =>
    obtain ⟨t, ms⟩ := hd
    cases hms : ms.isEmpty with
    | true =>
      have : ms = [] := List.isEmpty_iff.mp hms
      subst this
      simp [checkGlobalIdTypes, isGlobalIdErr]
    | false =>
      have hne : ms ≠ [] := by
        intro hc; subst hc; simp at hms
      constructor
      · rw [show checkGlobalIdTypes ((t, ms) :: tl) = checkGlobalIdTypes tl by
          simp [checkGlobalIdTypes, hms]]
        rw [ih.1]
        simp [hne]
      · rw [show checkGlobalIdTypes ((t, ms) :: tl) = checkGlobalIdTypes tl by
          simp [checkGlobalIdTypes, hms]]
        rw [ih.2]
        simp [hne]

/-- The entity-source loop errors (with an
ApolloFederationEntitySourceNotDefined) exactly when some entry has no
entity-source model, and succeeds otherwise. -/
theorem checkApolloEntityTypes_spec (a : List (QualifiedName × Option QualifiedName)) :
    (isApolloEntityErr (checkApolloEntityTypes a) = true ↔ ∃ p ∈ a, p.2 = none) ∧
      (checkApolloEntityTypes a = .ok () ↔ ¬ ∃ p ∈ a, p.2 = none) := by
  induction a with
  | nil => simp [checkApolloEntityTypes, isApolloEntityErr]
  | cons hd tl ih =>
    obtain ⟨t, src⟩ := hd
    cases src with
    | none => simp [checkApolloEntityTypes, isApolloEntityErr]
    | some m =>
      constructor
      · rw [show checkApolloEntityTypes ((t, some m) :: tl) = checkApolloEntityTypes tl by
          simp [checkApolloEntityTypes]]
        rw [ih.1]
        simp
      · rw [show checkApolloEntityTypes ((t, some m) :: tl) = checkApolloEntityTypes tl by
          simp [checkApolloEntityTypes]]
        rw [ih.2]
        simp

/-- The entity-source loop never produces a GlobalIdSourceNotDefined
error. -/
theorem checkApolloEntityTypes_not_globalid (a : List (QualifiedName × Option QualifiedName)) :
    isGlobalIdErr (checkApolloEntityTypes a) = false := by
  induction a with
  | nil => simp [checkApolloEntityTypes, isGlobalIdErr]
  | cons hd tl ih =>
    obtain ⟨t, src⟩ := hd
    cases src with
    | none => simp [checkApolloEntityTypes, isGlobalIdErr]
    | some m => simpa [checkApolloEntityTypes] using ih

/-- C8 (amended): the apollo stage fails with GlobalIdSourceNotDefined iff
some type in global_id_enabled_types has an empty model list; it fails
with ApolloFederationEntitySourceNotDefined iff some type in
apollo_federation_entity_enabled_types has no entity-source model AND no
global-id violation exists (the global-id check runs first); it succeeds
iff neither violation exists. -/
theorem apollo_resolve_characterization (g : List (QualifiedName × List QualifiedName))
    (a : List (QualifiedName × Option QualifiedName)) :
    (isGlobalIdErr (apollo_resolve g a) = true ↔ ∃ p ∈ g, p.2 = []) ∧
      (isApolloEntityErr (apollo_resolve g a) = true ↔
        ((¬ ∃ p ∈ g, p.2 = []) ∧ ∃ p ∈ a, p.2 = none)) ∧
      (apollo_resolve g a = .ok () ↔
        ((¬ ∃ p ∈ g, p.2 = []) ∧ ¬ ∃ p ∈ a, p.2 = none)) := by
  by_cases hg : ∃ p ∈ g, p.2 = []
  · have hgerr : isGlobalIdErr (checkGlobalIdTypes g) = true :=
      (checkGlobalIdTypes_spec g).1.mpr hg
    obtain ⟨t, herr⟩ : ∃ t, checkGlobalIdTypes g = .error (.globalIdSourceNotDefined t) := by
      cases hck : checkGlobalIdTypes g with
      | ok u => rw [hck] at hgerr; simp [isGlobalIdErr] at hgerr
      | error e =>
        cases e with
        | globalIdSourceNotDefined t => exact ⟨t, rfl⟩
        | apolloFederationEntitySourceNotDefined t =>
          rw [hck] at hgerr; simp [isGlobalIdErr] at hgerr
    have hres : apollo_resolve g a = .error (.globalIdSourceNotDefined t) := by
      simp [apollo_resolve, herr]
    refine ⟨?_, ?_, ?_⟩
    · simp [hres, isGlobalIdErr, hg]
    · simp [hres, isApolloEntityErr, hg]
    · simp [hres, hg]
  · have hok : checkGlobalIdTypes g = .ok () := (checkGlobalIdTypes_spec g).2.mpr hg
    have hres : apollo_resolve g a = checkApolloEntityTypes a := by
      simp [apollo_resolve, hok]
    refine ⟨?_, ?_, ?_⟩
    · rw [hres, checkApolloEntityTypes_not_globalid a]
      simp [hg]
    · rw [hres, (checkApolloEntityTypes_spec a).1]
      simp [hg]
    · rw [hres, (checkApolloEntityTypes_spec a).2]
      simp [hg]

/-- Counterexample to C8 as stated: with both a global-id violation and a
missing entity source present, the stage fails with
GlobalIdSourceNotDefined, not with ApolloFederationEntitySourceNotDefined,
although some type in the entity map has no entity-source model. -/
theorem apollo_resolve_order_counterexample :
    (({ subgraph := "s", name := "T2" } : QualifiedName), (none : Option QualifiedName)) ∈ c8_a ∧
      isApolloEntityErr (apollo_resolve c8_g c8_a) = false ∧
      apollo_resolve c8_g c8_a =
        .error (.globalIdSourceNotDefined { subgraph := "s", name := "T1" }) := by
  decide

/-- Counterexample to C9 as stated: the executor's preamble literal is not
the single-line string the claim quotes (the code literal has a newline
and two-space indent before the link directive and spaces after the
commas of the import list), so the returned SDL neither equals the
claimed preamble prepended to the role SDL nor begins with it. -/
theorem service_sdl_preamble_counterexample :
    extended_sdl "X" ≠ claimedFederationPreamble ++ "X" ∧
      isStrPrefix claimedFederationPreamble (extended_sdl "X") = false := by
  decide

/-- C9 (amended): for every _service selection whose fields are sdl or
__typename, execution succeeds and every sdl-named field's string value
is exactly the engine's preamble literal (two lines, indented link
directive, spaces after the import commas, trailing blank line) prepended
to the role's generated SDL; in particular the value always begins with
that literal. -/
theorem service_sdl_value (sdl : String) (selection_set : List (String × String))
    (h : ∀ p ∈ selection_set, p.2 = "sdl" ∨ p.2 = "__typename") :
    serviceFieldObject sdl selection_set =
        .ok (selection_set.map (fun p =>
          (p.1,
            if p.2 = "sdl" then JsonValue.str (extended_sdl sdl)
            else JsonValue.str "_Service"))) ∧
      execute_service_field sdl selection_set =
        { is_nullable := true,
          result := .ok (JsonValue.obj (JsonObj.ofList (selection_set.map (fun p =>
            (p.1,
              if p.2 = "sdl" then JsonValue.str (extended_sdl sdl)
              else JsonValue.str "_Service"))))) } ∧
      extended_sdl sdl = federationSchemaPreamble ++ sdl ∧
      isStrPrefix federationSchemaPreamble (extended_sdl sdl) = true := by
  have hobj : serviceFieldObject sdl selection_set =
      .ok (selection_set.map (fun p =>
        (p.1,
          if p.2 = "sdl" then JsonValue.str (extended_sdl sdl)
          else JsonValue.str "_Service"))) := by
    induction selection_set with
    | nil => simp [serviceFieldObject]
    | cons hd tl ih =>
      obtain ⟨fieldAlias, name⟩ := hd
      have hhd := h _ (List.mem_cons_self _ _)
      have htl := ih (fun p hp => h p (List.mem_cons_of_mem _ hp))
      rcases hhd with hsdl | htype
      · subst hsdl
        simp [serviceFieldObject, htl]
      · subst htype
        simp [serviceFieldObject, htl]
  refine ⟨hobj, ?_, rfl, ?_⟩
  · simp [execute_service_field, hobj]
  · simp [isStrPrefix, extended_sdl, String.data_append, List.take_left]

/-- Witness for the amended C9 on a concrete selection set. -/
theorem service_sdl_value_witness :
    (∀ p ∈ [("s", "sdl"), ("t", "__typename")], p.2 = "sdl" ∨ p.2 = "__typename") ∧
      (serviceFieldObject "type Query" [("s", "sdl"), ("t", "__typename")] =
          .ok ([("s", "sdl"), ("t", "__typename")].map (fun p =>
            (p.1,
              if p.2 = "sdl" then JsonValue.str (extended_sdl "type Query")
              else JsonValue.str "_Service"))) ∧
        execute_service_field "type Query" [("s", "sdl"), ("t", "__typename")] =
          { is_nullable := true,
            result := .ok (JsonValue.obj (JsonObj.ofList
              ([("s", "sdl"), ("t", "__typename")].map (fun p =>
                (p.1,
                  if p.2 = "sdl" then JsonValue.str (extended_sdl "type Query")
                  else JsonValue.str "_Service"))))) } ∧
        extended_sdl "type Query" = federationSchemaPreamble ++ "type Query" ∧
        isStrPrefix federationSchemaPreamble (extended_sdl "type Query") = true) :=
  ⟨by decide, service_sdl_value "type Query" [("s", "sdl"), ("t", "__typename")] (by decide)⟩

/-- Executing one connector group maps each field to its oracle result
(with its nullability) and traces each call as an adjacent begin/end
pair, in order. -/
theorem executeMutationFields_spec {δ π : Type}
    (exec : NDCMutationExecution δ π → Except EngineError JsonValue)
    (l : List (String × NDCMutationExecution δ π)) :
    executeMutationFields exec l =
      (l.map (fun p => (p.1,
        { is_nullable := p.2.process_response_as.is_nullable, result := exec p.2 })),
        seqTrace (l.map Prod.fst)) := by
  induction l with
  | nil => simp [executeMutationFields, seqTrace]
  | cons hd tl ih =>
    obtain ⟨a, fp⟩ := hd
    simp [executeMutationFields, ih, seqTrace]

/-- Executing the connector groups sequentially produces exactly the
flattened fields' results and the strictly sequential trace of their
aliases in group-major order. -/
theorem executeMutationGroups_spec {δ π : Type}
    (exec : NDCMutationExecution δ π → Except EngineError JsonValue)
    (nodes : List (δ × List (String × NDCMutationExecution δ π))) :
    executeMutationGroups exec nodes =
      ((nodes.flatMap (fun g => g.2)).map (fun p => (p.1,
        { is_nullable := p.2.process_response_as.is_nullable, result := exec p.2 })),
        seqTrace ((nodes.flatMap (fun g => g.2)).map Prod.fst)) := by
  induction nodes with
  | nil => simp [executeMutationGroups, seqTrace]
  | cons hd tl ih =>
    obtain ⟨d, group⟩ := hd
    simp [executeMutationGroups, executeMutationFields_spec, ih, seqTrace]

/-- The results and trace of execute_mutation_plan, in closed form. -/
theorem execute_mutation_plan_spec {δ π : Type}
    (exec : NDCMutationExecution δ π → Except EngineError JsonValue)
    (plan : MutationPlan δ π) :
    execute_mutation_plan exec plan =
      ({ root_fields :=
          plan.type_names.map (fun p => (p.1,
            { is_nullable := false, result := .ok (JsonValue.str p.2) })) ++
          (MutationPlan.flatFields plan).map (fun p => (p.1,
            { is_nullable := p.2.process_response_as.is_nullable, result := exec p.2 })) },
        seqTrace ((MutationPlan.flatFields plan).map Prod.fst)) := by
  simp [execute_mutation_plan, executeMutationGroups_spec, MutationPlan.flatFields]

/-- Planning a run of procedure fields that all live on the same
connector keeps them in one group, in document order. -/
theorem generateRequestPlanGo_single_connector {κ μ ν δ π : Type} [DecidableEq δ]
    (plan_query : κ → Except EngineError ν)
    (plan_mutation : μ → Except EngineError (NDCMutationExecution δ π))
    (d : δ) (l : List (String × RootFieldIR κ μ))
    (hall : ∀ p ∈ l, ∃ m, p.2 = .mutationRootField (.procedureBasedCommand m) ∧
      ∃ ex, plan_mutation m = .ok ex ∧ ex.data_connector = d) :
    ∀ fs tns, ∃ fs',
      generateRequestPlanGo plan_query plan_mutation l
          (some (.mutationPlan { nodes := [(d, fs)], type_names := tns })) =
        .ok (some (.mutationPlan { nodes := [(d, fs ++ fs')], type_names := tns })) ∧
      fs'.map Prod.fst = l.map Prod.fst := by
  induction l with
  | nil =>
    intro fs tns
    exact ⟨[], by simp [generateRequestPlanGo], by simp⟩
  | cons hd tl ih =>
    intro fs tns
    obtain ⟨a, f⟩ := hd
    obtain ⟨m, hf, ex, hex, hd'⟩ := hall _ (List.mem_cons_self _ _)
    have htl := ih (fun p hp => hall p (List.mem_cons_of_mem _ hp))
    obtain ⟨fs', hgo, hfst⟩ := htl (fs ++ [(a, ex)]) tns
    refine ⟨(a, ex) :: fs', ?_, by simp [hfst]⟩
    simp only at hf
    subst hf
    rw [show generateRequestPlanGo plan_query plan_mutation
        ((a, RootFieldIR.mutationRootField (.procedureBasedCommand m)) :: tl)
        (some (.mutationPlan { nodes := [(d, fs)], type_names := tns }))
        = generateRequestPlanGo plan_query plan_mutation tl
          (some (.mutationPlan
            { nodes := insertGrouped [(d, fs)] ex.data_connector a ex,
              type_names := tns })) by
      simp [generateRequestPlanGo, hex]]
    rw [show insertGrouped [(d, fs)] ex.data_connector a ex = [(d, fs ++ [(a, ex)])] by
      simp [insertGrouped, hd']]
    rw [hgo]
    simp

/-- C4 (amended): mutation execution is strictly sequential — its NDC
call trace is exactly the begin/end blocks of its root fields, one
completed before the next begins, in group-major order (connector groups
in first-appearance order, document order within each group) — and
whenever all mutation root fields of the request live on one data
connector, that order IS the document order of the root fields. Across
distinct connectors document order is not preserved (see the
counterexample). -/
theorem mutation_execution_sequential {κ μ ν δ π : Type} [DecidableEq δ]
    (plan_query : κ → Except EngineError ν)
    (plan_mutation : μ → Except EngineError (NDCMutationExecution δ π))
    (exec : NDCMutationExecution δ π → Except EngineError JsonValue)
    (ir : List (String × RootFieldIR κ μ)) (d : δ)
    (hall : ∀ p ∈ ir, ∃ m, p.2 = .mutationRootField (.procedureBasedCommand m) ∧
      ∃ ex, plan_mutation m = .ok ex ∧ ex.data_connector = d)
    (hne : ir ≠ []) :
    (∀ plan : MutationPlan δ π,
      (execute_mutation_plan exec plan).2 =
        seqTrace ((MutationPlan.flatFields plan).map Prod.fst)) ∧
    ∃ mp, generate_request_plan plan_query plan_mutation ir = .ok (.mutationPlan mp) ∧
      (execute_mutation_plan exec mp).2 = seqTrace (ir.map Prod.fst) := by
  constructor
  · intro plan
    rw [execute_mutation_plan_spec]
  · cases ir with
    | nil => exact absurd rfl hne
    | cons hd tl =>
      obtain ⟨a, f⟩ := hd
      obtain ⟨m, hf, ex, hex, hd'⟩ := hall _ (List.mem_cons_self _ _)
      simp only at hf
      subst hf
      obtain ⟨fs', hgo, hfst⟩ :=
        generateRequestPlanGo_single_connector plan_query plan_mutation d tl
          (fun p hp => hall p (List.mem_cons_of_mem _ hp)) [(a, ex)] []
      refine ⟨{ nodes := [(d, (a, ex) :: fs')], type_names := [] }, ?_, ?_⟩
      · rw [show generate_request_plan plan_query plan_mutation
            ((a, RootFieldIR.mutationRootField (.procedureBasedCommand m)) :: tl)
            = match generateRequestPlanGo plan_query plan_mutation tl
                (some (.mutationPlan
                  { nodes := insertGrouped [] ex.data_connector a ex, type_names := [] })) with
              | .error e => .error e
              | .ok none => .error emptyRequestError
              | .ok (some p) => .ok p by
          simp [generate_request_plan, generateRequestPlanGo, hex]]
        rw [show insertGrouped ([] : List (δ × List (String × NDCMutationExecution δ π)))
            ex.data_connector a ex = [(ex.data_connector, [(a, ex)])] by simp [insertGrouped]]
        rw [hd']
        rw [hgo]
        simp
      · rw [execute_mutation_plan_spec]
        simp [MutationPlan.flatFields, hfst]

/-- Witness for the amended C4: the same-connector request w4_ir plans to
one group and executes in document order; the trace of the concrete c4
plan is its flattened-field blocks. -/
theorem mutation_execution_sequential_witness :
    (execute_mutation_plan c4_exec c4_mp).2 =
        seqTrace ((MutationPlan.flatFields c4_mp).map Prod.fst) ∧
      ∃ mp, generate_request_plan unitPlanQuery connPlanMutation w4_ir =
          .ok (.mutationPlan mp) ∧
        (execute_mutation_plan c4_exec mp).2 = seqTrace (w4_ir.map Prod.fst) := by
  have h := mutation_execution_sequential unitPlanQuery connPlanMutation c4_exec w4_ir "c1"
    (by
      intro p hp
      simp only [w4_ir, List.mem_cons, List.not_mem_nil, or_false] at hp
      rcases hp with rfl | rfl | rfl <;>
        exact ⟨"c1", rfl, _, rfl, rfl⟩)
    (by simp [w4_ir])
  exact ⟨h.1 c4_mp, h.2⟩

/-- Counterexample to C4 as stated: the request c4_ir has mutation root
fields [a, b, c] in document order (a and c on connector c1, b on c2);
the executed NDC call trace is the blocks of [a, c, b], not of
[a, b, c]. -/
theorem mutation_document_order_counterexample :
    c4_trace = seqTrace ["a", "c", "b"] ∧ c4_trace ≠ seqTrace ["a", "b", "c"] := by
  decide

/-- C5 (amended): when the first of the two mutation root fields fails
and is non-nullable, the response is data null with the single error
pathed at that field — but the NDC call for the second field IS still
issued: mutation execution does not stop at a failing field, only
response assembly drops the later results. -/
theorem mutation_nonnullable_failure_response {δ π : Type}
    (exec : NDCMutationExecution δ π → Except EngineError JsonValue)
    (aA aB : String) (pA pB : NDCMutationExecution δ π) (e : EngineError)
    (plan : MutationPlan δ π)
    (htn : plan.type_names = [])
    (hff : MutationPlan.flatFields plan = [(aA, pA), (aB, pB)])
    (hfail : exec pA = .error e)
    (hnn : pA.process_response_as.is_nullable = false) :
    (execute_mutation_plan exec plan).1.to_graphql_response =
        Response.error (e.to_graphql_error (some [PathSegment.field aA])) ∧
      MutEvent.beginCall aB ∈ (execute_mutation_plan exec plan).2 := by
  rw [execute_mutation_plan_spec, htn, hff]
  constructor
  · simp [ExecuteQueryResult.to_graphql_response, toGraphqlResponseGo, hfail, hnn]
  · simp [seqTrace]

/-- Witness for the amended C5 on the concrete c5 scenario. -/
theorem mutation_nonnullable_failure_response_witness :
    (execute_mutation_plan c5_exec c5_mp).1.to_graphql_response =
        Response.error ((EngineError.ndcError "insertA failed").to_graphql_error
          (some [PathSegment.field "insertA"])) ∧
      MutEvent.beginCall "insertB" ∈ (execute_mutation_plan c5_exec c5_mp).2 :=
  mutation_nonnullable_failure_response c5_exec "insertA" "insertB"
    { query := "A", data_connector := "c1",
      process_response_as := .commandResponse { nullable := false } }
    { query := "B", data_connector := "c1",
      process_response_as := .commandResponse { nullable := false } }
    (.ndcError "insertA failed") c5_mp (by decide) (by decide) rfl rfl

/-- Counterexample to C5 as stated: in the concrete [insertA, insertB]
scenario where insertA fails non-nullably, the NDC call for insertB IS
issued (its begin event is in the trace), contradicting the claim; the
response itself is data null with the single insertA-pathed error. -/
theorem mutation_second_call_issued_counterexample :
    MutEvent.beginCall "insertB" ∈ c5_out.2 ∧
      c5_response = Response.error ((EngineError.ndcError "insertA failed").to_graphql_error
        (some [PathSegment.field "insertA"])) := by
  decide

/-- With a query plan accumulated, a remaining field list whose query
fields all plan successfully and which contains a mutation field drives
the loop into the mixed-operations error. -/
theorem generateRequestPlanGo_query_meets_mutation {κ μ ν δ π : Type} [DecidableEq δ]
    (plan_query : κ → Except EngineError ν)
    (plan_mutation : μ → Except EngineError (NDCMutationExecution δ π))
    (l : List (String × RootFieldIR κ μ))
    (hq : ∀ p ∈ l, ∀ k, p.2 = .queryRootField k → ∃ v, plan_query k = .ok v)
    (hmut : ∃ p ∈ l, ∃ mf, p.2 = .mutationRootField mf) :
    ∀ qp, generateRequestPlanGo plan_query plan_mutation l (some (.queryPlan qp)) =
      .error mixedMutationAndQueryError := by
  induction l with
  | nil =>
    obtain ⟨p, hp, _⟩ := hmut
    cases hp
  | cons hd tl ih =>
    intro qp
    obtain ⟨a, f⟩ := hd
    cases f with
    | mutationRootField mf => simp [generateRequestPlanGo]
    | queryRootField k =>
      obtain ⟨v, hv⟩ := hq _ (List.mem_cons_self _ _) k rfl
      have hmut' : ∃ p ∈ tl, ∃ mf, p.2 = .mutationRootField mf := by
        obtain ⟨p, hp, mf, hpf⟩ := hmut
        rcases List.mem_cons.mp hp with heq | hmem
        · subst heq; cases hpf
        · exact ⟨p, hmem, mf, hpf⟩
      rw [show generateRequestPlanGo plan_query plan_mutation
          ((a, RootFieldIR.queryRootField k) :: tl) (some (.queryPlan qp))
          = generateRequestPlanGo plan_query plan_mutation tl
            (some (.queryPlan (qp ++ [(a, v)]))) by
        simp [generateRequestPlanGo, hv]]
      exact ih (fun p hp => hq p (List.mem_cons_of_mem _ hp)) hmut' _

/-- With a mutation plan accumulated, a remaining field list whose
procedure fields all plan successfully and which contains a query field
drives the loop into the mixed-operations error. -/
theorem generateRequestPlanGo_mutation_meets_query {κ μ ν δ π : Type} [DecidableEq δ]
    (plan_query : κ → Except EngineError ν)
    (plan_mutation : μ → Except EngineError (NDCMutationExecution δ π))
    (l : List (String × RootFieldIR κ μ))
    (hm : ∀ p ∈ l, ∀ m, p.2 = .mutationRootField (.procedureBasedCommand m) →
      ∃ ex, plan_mutation m = .ok ex)
    (hquery : ∃ p ∈ l, ∃ k, p.2 = .queryRootField k) :
    ∀ mp, generateRequestPlanGo plan_query plan_mutation l (some (.mutationPlan mp)) =
      .error mixedMutationAndQueryError := by
  induction l with
  | nil =>
    obtain ⟨p, hp, _⟩ := hquery
    cases hp
  | cons hd tl ih =>
    intro mp
    obtain ⟨a, f⟩ := hd
    cases f with
    | queryRootField k => simp [generateRequestPlanGo]
    | mutationRootField mf =>
      have hquery' : ∃ p ∈ tl, ∃ k, p.2 = .queryRootField k := by
        obtain ⟨p, hp, k, hpf⟩ := hquery
        rcases List.mem_cons.mp hp with heq | hmem
        · subst heq; cases hpf
        · exact ⟨p, hmem, k, hpf⟩
      have ihtl := ih (fun p hp => hm p (List.mem_cons_of_mem _ hp)) hquery'
      cases mf with
      | typeName t =>
        rw [show generateRequestPlanGo plan_query plan_mutation
            ((a, RootFieldIR.mutationRootField (.typeName t)) :: tl)
            (some (.mutationPlan mp))
            = generateRequestPlanGo plan_query plan_mutation tl
              (some (.mutationPlan
                { nodes := mp.nodes, type_names := mp.type_names ++ [(a, t)] })) by
          simp [generateRequestPlanGo]]
        exact ihtl _
      | procedureBasedCommand m =>
        obtain ⟨ex, hex⟩ := hm _ (List.mem_cons_self _ _) m rfl
        rw [show generateRequestPlanGo plan_query plan_mutation
            ((a, RootFieldIR.mutationRootField (.procedureBasedCommand m)) :: tl)
            (some (.mutationPlan mp))
            = generateRequestPlanGo plan_query plan_mutation tl
              (some (.mutationPlan
                { nodes := insertGrouped mp.nodes ex.data_connector a ex,
                  type_names := mp.type_names })) by
          simp [generateRequestPlanGo, hex]]
        exact ihtl _

/-- With a query plan accumulated, a remaining all-query field list whose
fields plan successfully completes into a query plan. -/
theorem generateRequestPlanGo_all_query {κ μ ν δ π : Type} [DecidableEq δ]
    (plan_query : κ → Except EngineError ν)
    (plan_mutation : μ → Except EngineError (NDCMutationExecution δ π))
    (l : List (String × RootFieldIR κ μ))
    (hall : ∀ p ∈ l, ∃ k, p.2 = .queryRootField k ∧ ∃ v, plan_query k = .ok v) :
    ∀ qp, ∃ qp', generateRequestPlanGo plan_query plan_mutation l (some (.queryPlan qp)) =
      .ok (some (.queryPlan qp')) := by
  induction l with
  | nil => intro qp; exact ⟨qp, by simp [generateRequestPlanGo]⟩
  | cons hd tl ih =>
    intro qp
    obtain ⟨a, f⟩ := hd
    obtain ⟨k, hf, v, hv⟩ := hall _ (List.mem_cons_self _ _)
    simp only at hf
    subst hf
    obtain ⟨qp', hqp'⟩ := ih (fun p hp => hall p (List.mem_cons_of_mem _ hp)) (qp ++ [(a, v)])
    refine ⟨qp', ?_⟩
    rw [show generateRequestPlanGo plan_query plan_mutation
        ((a, RootFieldIR.queryRootField k) :: tl) (some (.queryPlan qp))
        = generateRequestPlanGo plan_query plan_mutation tl
          (some (.queryPlan (qp ++ [(a, v)]))) by
      simp [generateRequestPlanGo, hv]]
    exact hqp'

/-- With a mutation plan accumulated, a remaining all-mutation field list
whose procedure fields plan successfully completes into a mutation
plan. -/
theorem generateRequestPlanGo_all_mutation {κ μ ν δ π : Type} [DecidableEq δ]
    (plan_query : κ → Except EngineError ν)
    (plan_mutation : μ → Except EngineError (NDCMutationExecution δ π))
    (l : List (String × RootFieldIR κ μ))
    (hall : ∀ p ∈ l, ∃ mf, p.2 = .mutationRootField mf ∧
      ∀ m, mf = .procedureBasedCommand m → ∃ ex, plan_mutation m = .ok ex) :
    ∀ mp, ∃ mp', generateRequestPlanGo plan_query plan_mutation l (some (.mutationPlan mp)) =
      .ok (some (.mutationPlan mp')) := by
  induction l with
  | nil => intro mp; exact ⟨mp, by simp [generateRequestPlanGo]⟩
  | cons hd tl ih =>
    intro mp
    obtain ⟨a, f⟩ := hd
    obtain ⟨mf, hf, hproc⟩ := hall _ (List.mem_cons_self _ _)
    simp only at hf
    subst hf
    have ihtl := ih (fun p hp => hall p (List.mem_cons_of_mem _ hp))
    cases mf with
    | typeName t =>
      obtain ⟨mp', hmp'⟩ := ihtl
        { nodes := mp.nodes, type_names := mp.type_names ++ [(a, t)] }
      refine ⟨mp', ?_⟩
      rw [show generateRequestPlanGo plan_query plan_mutation
          ((a, RootFieldIR.mutationRootField (.typeName t)) :: tl)
          (some (.mutationPlan mp))
          = generateRequestPlanGo plan_query plan_mutation tl
            (some (.mutationPlan
              { nodes := mp.nodes, type_names := mp.type_names ++ [(a, t)] })) by
        simp [generateRequestPlanGo]]
      exact hmp'
    | procedureBasedCommand m =>
      obtain ⟨ex, hex⟩ := hproc m rfl
      obtain ⟨mp', hmp'⟩ := ihtl
        { nodes := insertGrouped mp.nodes ex.data_connector a ex,
          type_names := mp.type_names }
      refine ⟨mp', ?_⟩
      rw [show generateRequestPlanGo plan_query plan_mutation
          ((a, RootFieldIR.mutationRootField (.procedureBasedCommand m)) :: tl)
          (some (.mutationPlan mp))
          = generateRequestPlanGo plan_query plan_mutation tl
            (some (.mutationPlan
              { nodes := insertGrouped mp.nodes ex.data_connector a ex,
                type_names := mp.type_names })) by
        simp [generateRequestPlanGo, hex]]
      exact hmp'

/-- C3: provided each root field individually plans successfully, a
request containing both a query root field and a mutation root field
fails with the mixed-operations plan error and produces no plan; a
non-empty request of only query root fields produces a QueryPlan; a
non-empty request of only mutation root fields produces a MutationPlan. -/
theorem generate_request_plan_mixed_and_pure {κ μ ν δ π : Type} [DecidableEq δ]
    (plan_query : κ → Except EngineError ν)
    (plan_mutation : μ → Except EngineError (NDCMutationExecution δ π))
    (ir : List (String × RootFieldIR κ μ))
    (hq : ∀ p ∈ ir, ∀ k, p.2 = .queryRootField k → ∃ v, plan_query k = .ok v)
    (hm : ∀ p ∈ ir, ∀ m, p.2 = .mutationRootField (.procedureBasedCommand m) →
      ∃ ex, plan_mutation m = .ok ex) :
    ((∃ p ∈ ir, ∃ k, p.2 = .queryRootField k) →
      (∃ p ∈ ir, ∃ mf, p.2 = .mutationRootField mf) →
      generate_request_plan plan_query plan_mutation ir = .error mixedMutationAndQueryError) ∧
    (ir ≠ [] → (∀ p ∈ ir, ∃ k, p.2 = .queryRootField k) →
      ∃ qp, generate_request_plan plan_query plan_mutation ir = .ok (.queryPlan qp)) ∧
    (ir ≠ [] → (∀ p ∈ ir, ∃ mf, p.2 = .mutationRootField mf) →
      ∃ mp, generate_request_plan plan_query plan_mutation ir = .ok (.mutationPlan mp)) := by
  refine ⟨?_, ?_, ?_⟩
  · intro hexq hexm
    cases ir with
    | nil =>
      obtain ⟨p, hp, _⟩ := hexq
      cases hp
    | cons hd tl =>
      obtain ⟨a, f⟩ := hd
      have hqtl := fun p hp => hq p (List.mem_cons_of_mem _ hp)
      have hmtl := fun p hp => hm p (List.mem_cons_of_mem _ hp)
      cases f with
      | queryRootField k =>
        obtain ⟨v, hv⟩ := hq _ (List.mem_cons_self _ _) k rfl
        have hexm' : ∃ p ∈ tl, ∃ mf, p.2 = .mutationRootField mf := by
          obtain ⟨p, hp, mf, hpf⟩ := hexm
          rcases List.mem_cons.mp hp with heq | hmem
          · subst heq; cases hpf
          · exact ⟨p, hmem, mf, hpf⟩
        have hgo := generateRequestPlanGo_query_meets_mutation plan_query plan_mutation tl
          hqtl hexm' [(a, v)]
        simp [generate_request_plan, generateRequestPlanGo, hv, hgo]
      | mutationRootField mf =>
        have hexq' : ∃ p ∈ tl, ∃ k, p.2 = .queryRootField k := by
          obtain ⟨p, hp, k, hpf⟩ := hexq
          rcases List.mem_cons.mp hp with heq | hmem
          · subst heq; cases hpf
          · exact ⟨p, hmem, k, hpf⟩
        cases mf with
        | typeName t =>
          have hgo := generateRequestPlanGo_mutation_meets_query plan_query plan_mutation tl
            hmtl hexq' { nodes := [], type_names := [(a, t)] }
          simp [generate_request_plan, generateRequestPlanGo, hgo]
        | procedureBasedCommand m =>
          obtain ⟨ex, hex⟩ := hm _ (List.mem_cons_self _ _) m rfl
          have hgo := generateRequestPlanGo_mutation_meets_query plan_query plan_mutation tl
            hmtl hexq' { nodes := insertGrouped [] ex.data_connector a ex, type_names := [] }
          simp [generate_request_plan, generateRequestPlanGo, hex, hgo]
  · intro hne hall
    cases ir with
    | nil => exact absurd rfl hne
    | cons hd tl =>
      obtain ⟨a, f⟩ := hd
      obtain ⟨k, hf⟩ := hall _ (List.mem_cons_self _ _)
      simp only at hf
      subst hf
      obtain ⟨v, hv⟩ := hq _ (List.mem_cons_self _ _) k rfl
      have halltl : ∀ p ∈ tl, ∃ k, p.2 = RootFieldIR.queryRootField k ∧
          ∃ v, plan_query k = .ok v := by
        intro p hp
        obtain ⟨k', hk'⟩ := hall p (List.mem_cons_of_mem _ hp)
        exact ⟨k', hk', hq p (List.mem_cons_of_mem _ hp) k' hk'⟩
      obtain ⟨qp', hqp'⟩ := generateRequestPlanGo_all_query plan_query plan_mutation tl
        halltl [(a, v)]
      refine ⟨qp', ?_⟩
      simp [generate_request_plan, generateRequestPlanGo, hv, hqp']
  · intro hne hall
    cases ir with
    | nil => exact absurd rfl hne
    | cons hd tl =>
      obtain ⟨a, f⟩ := hd
      obtain ⟨mf, hf⟩ := hall _ (List.mem_cons_self _ _)
      simp only at hf
      subst hf
      have halltl : ∀ p ∈ tl, ∃ mf, p.2 = RootFieldIR.mutationRootField mf ∧
          ∀ m, mf = .procedureBasedCommand m → ∃ ex, plan_mutation m = .ok ex := by
        intro p hp
        obtain ⟨mf', hmf'⟩ := hall p (List.mem_cons_of_mem _ hp)
        refine ⟨mf', hmf', ?_⟩
        intro m hmeq
        subst hmeq
        exact hm p (List.mem_cons_of_mem _ hp) m hmf'
      cases mf with
      | typeName t =>
        obtain ⟨mp', hmp'⟩ := generateRequestPlanGo_all_mutation plan_query plan_mutation tl
          halltl { nodes := [], type_names := [(a, t)] }
        refine ⟨mp', ?_⟩
        simp [generate_request_plan, generateRequestPlanGo, hmp']
      | procedureBasedCommand m =>
        obtain ⟨ex, hex⟩ := hm _ (List.mem_cons_self _ _) m rfl
        obtain ⟨mp', hmp'⟩ := generateRequestPlanGo_all_mutation plan_query plan_mutation tl
          halltl { nodes := insertGrouped [] ex.data_connector a ex, type_names := [] }
        refine ⟨mp', ?_⟩
        simp [generate_request_plan, generateRequestPlanGo, hex, hmp']

/-- Witness for C3 on the concrete mixed, all-query and all-mutation
requests. -/
theorem generate_request_plan_mixed_and_pure_witness :
    generate_request_plan unitPlanQuery connPlanMutation w3_mixed_ir =
        .error mixedMutationAndQueryError ∧
      (∃ qp, generate_request_plan unitPlanQuery connPlanMutation w3_query_ir =
        .ok (.queryPlan qp)) ∧
      (∃ mp, generate_request_plan unitPlanQuery connPlanMutation w3_mutation_ir =
        .ok (.mutationPlan mp)) := by
  refine ⟨?_, ?_, ?_⟩
  · refine (generate_request_plan_mixed_and_pure unitPlanQuery connPlanMutation w3_mixed_ir
      ?_ ?_).1 ?_ ?_
    · intro p hp k hk
      exact ⟨(), rfl⟩
    · intro p hp m hm
      exact ⟨_, rfl⟩
    · exact ⟨("q", .queryRootField ()), by simp [w3_mixed_ir], (), rfl⟩
    · exact ⟨("m", .mutationRootField (.procedureBasedCommand "c1")),
        by simp [w3_mixed_ir], .procedureBasedCommand "c1", rfl⟩
  · refine (generate_request_plan_mixed_and_pure unitPlanQuery connPlanMutation w3_query_ir
      ?_ ?_).2.1 ?_ ?_
    · intro p hp k hk
      exact ⟨(), rfl⟩
    · intro p hp m hm
      exact ⟨_, rfl⟩
    · simp [w3_query_ir]
    · intro p hp
      simp only [w3_query_ir, List.mem_cons, List.not_mem_nil, or_false] at hp
      rcases hp with rfl | rfl <;> exact ⟨(), rfl⟩
  · refine (generate_request_plan_mixed_and_pure unitPlanQuery connPlanMutation w3_mutation_ir
      ?_ ?_).2.2 ?_ ?_
    · intro p hp k hk
      exact ⟨(), rfl⟩
    · intro p hp m hm
      exact ⟨_, rfl⟩
    · simp [w3_mutation_ir]
    · intro p hp
      simp only [w3_mutation_ir, List.mem_cons, List.not_mem_nil, or_false] at hp
      rcases hp with rfl | rfl <;> exact ⟨_, rfl⟩

/-- A linear scan that misses means no entry carries the probed remote
join. -/
theorem findAssigned_none {α : Type} [DecidableEq α] (l : List (α × Nat)) (a : α)
    (h : findAssigned l a = none) : ∀ p ∈ l, p.1 ≠ a := by
  induction l with
  | nil => intro p hp; cases hp
  | cons hd tl ih =>
    intro p hp
    obtain ⟨b, j⟩ := hd
    by_cases hba : b = a
    · subst hba
      simp [findAssigned] at h
    · rw [show findAssigned ((b, j) :: tl) a = findAssigned tl a by
        simp [findAssigned, hba]] at h
      rcases List.mem_cons.mp hp with heq | hmem
      · subst heq; exact hba
      · exact ih h p hmem

/-- A successful linear scan returns an entry of the list. -/
theorem findAssigned_mem {α : Type} [DecidableEq α] (l : List (α × Nat)) (a : α) (i : Nat)
    (h : findAssigned l a = some i) : (a, i) ∈ l := by
  induction l with
  | nil => simp [findAssigned] at h
  | cons hd tl ih =>
    obtain ⟨b, j⟩ := hd
    by_cases hba : b = a
    · subst hba
      simp [findAssigned] at h
      subst h
      exact List.mem_cons_self _ _
    · rw [show findAssigned ((b, j) :: tl) a = findAssigned tl a by
        simp [findAssigned, hba]] at h
      exact List.mem_cons_of_mem _ (ih h)

/-- A hit in the prefix survives appending. -/
theorem findAssigned_append_some {α : Type} [DecidableEq α] (l l' : List (α × Nat))
    (a : α) (i : Nat) (h : findAssigned l a = some i) :
    findAssigned (l ++ l') a = some i := by
  induction l with
  | nil => simp [findAssigned] at h
  | cons hd tl ih =>
    obtain ⟨b, j⟩ := hd
    by_cases hba : b = a
    · subst hba
      simp [findAssigned] at h ⊢
      exact h
    · rw [show findAssigned ((b, j) :: tl) a = findAssigned tl a by
        simp [findAssigned, hba]] at h
      simpa [findAssigned, hba] using ih h

/-- After a miss, the freshly appended entry is found. -/
theorem findAssigned_append_self {α : Type} [DecidableEq α] (l : List (α × Nat))
    (a : α) (i : Nat) (h : findAssigned l a = none) :
    findAssigned (l ++ [(a, i)]) a = some i := by
  induction l with
  | nil => simp [findAssigned]
  | cons hd tl ih =>
    obtain ⟨b, j⟩ := hd
    by_cases hba : b = a
    · subst hba
      simp [findAssigned] at h
    · rw [show findAssigned ((b, j) :: tl) a = findAssigned tl a by
        simp [findAssigned, hba]] at h
      simpa [findAssigned, hba] using ih h

/-- assign_join_id preserves the counter-state invariant. -/
theorem assign_join_id_inv {α : Type} [DecidableEq α] (a : α) (st : RemoteJoinCounter α)
    (h : CounterInv st) : CounterInv (assign_join_id a st).2 := by
  unfold assign_join_id
  cases hfind : findAssigned st.remote_joins a with
  | some i => exact h
  | none =>
    have hne := findAssigned_none st.remote_joins a hfind
    constructor
    · intro p hp
      rcases List.mem_append.mp hp with hold | hnew
      · exact Nat.lt_succ_of_lt (h.1 p hold)
      · rcases List.mem_singleton.mp hnew with rfl
        exact Nat.lt_succ_self _
    · intro p hp q hq
      rcases List.mem_append.mp hp with hpold | hpnew <;>
        rcases List.mem_append.mp hq with hqold | hqnew
      · exact h.2 p hpold q hqold
      · rcases List.mem_singleton.mp hqnew with rfl
        have h1 : p.1 ≠ a := hne p hpold
        have h2 : p.2 ≠ st.counter := Nat.ne_of_lt (h.1 p hpold)
        simp [h1, h2]
      · rcases List.mem_singleton.mp hpnew with rfl
        have h1 : q.1 ≠ a := hne q hqold
        have h2 : q.2 ≠ st.counter := Nat.ne_of_lt (h.1 q hqold)
        simp [Ne.symm h1, Ne.symm h2]
      · rcases List.mem_singleton.mp hpnew with rfl
        rcases List.mem_singleton.mp hqnew with rfl
        simp

/-- assign_join_id records the id it returns. -/
theorem assign_join_id_lookup {α : Type} [DecidableEq α] (a : α)
    (st : RemoteJoinCounter α) :
    lookupId (assign_join_id a st).2 a = some (assign_join_id a st).1 := by
  unfold assign_join_id lookupId
  cases hfind : findAssigned st.remote_joins a with
  | some i => exact hfind
  | none => exact findAssigned_append_self _ _ _ hfind

/-- assign_join_id never forgets an earlier recording. -/
theorem assign_join_id_stable {α : Type} [DecidableEq α] (a b : α)
    (st : RemoteJoinCounter α) (j : Nat) (h : lookupId st b = some j) :
    lookupId (assign_join_id a st).2 b = some j := by
  unfold assign_join_id lookupId
  cases hfind : findAssigned st.remote_joins a with
  | some i => exact h
  | none => exact findAssigned_append_some _ _ _ _ h

/-- assignList preserves the counter-state invariant. -/
theorem assignList_inv {α : Type} [DecidableEq α] (l : List α) :
    ∀ st : RemoteJoinCounter α, CounterInv st → CounterInv (assignList l st).2 := by
  induction l with
  | nil => intro st h; exact h
  | cons a tl ih =>
    intro st h
    simpa [assignList] using ih _ (assign_join_id_inv a st h)

/-- assignList never forgets an earlier recording. -/
theorem assignList_stable {α : Type} [DecidableEq α] (l : List α) :
    ∀ (st : RemoteJoinCounter α) (b : α) (j : Nat), lookupId st b = some j →
      lookupId (assignList l st).2 b = some j := by
  induction l with
  | nil => intro st b j h; exact h
  | cons a tl ih =>
    intro st b j h
    simpa [assignList] using ih _ b j (assign_join_id_stable a b st j h)

/-- assignList returns one id per remote join. -/
theorem assignList_length {α : Type} [DecidableEq α] (l : List α) :
    ∀ st : RemoteJoinCounter α, (assignList l st).1.length = l.length := by
  induction l with
  | nil => intro st; rfl
  | cons a tl ih => intro st; simpa [assignList] using ih _

/-- In the final state of assignList, every remote join of the input looks
up to the id assigned at its position. -/
theorem assignList_lookup {α : Type} [DecidableEq α] (l : List α) :
    ∀ (st : RemoteJoinCounter α) (k : Nat) (hk : k < l.length)
      (hk2 : k < (assignList l st).1.length),
      lookupId (assignList l st).2 (l.get ⟨k, hk⟩) =
        some ((assignList l st).1.get ⟨k, hk2⟩) := by
  induction l with
  | nil => intro st k hk hk2; cases hk
  | cons a tl ih =>
    intro st k hk hk2
    cases k with
    | zero =>
      simp only [assignList, List.get]
      exact assignList_stable tl _ a _ (assign_join_id_lookup a st)
    | succ k =>
      have hk2' : k < (assignList tl (assign_join_id a st).2).1.length := by
        have := hk2
        simpa [assignList] using this
      simpa [assignList] using ih _ k (Nat.lt_of_succ_lt_succ hk) hk2'

/-- Membership in a zip happens at a common index. -/
theorem mem_zip_index {α β : Type} (l : List α) :
    ∀ (ids : List β) (p : α × β), p ∈ l.zip ids →
      ∃ (k : Nat) (hk : k < l.length) (hk2 : k < ids.length),
        l.get ⟨k, hk⟩ = p.1 ∧ ids.get ⟨k, hk2⟩ = p.2 := by
  induction l with
  | nil => intro ids p hp; simp [List.zip] at hp
  | cons a tl ih =>
    intro ids p hp
    cases ids with
    | nil => simp [List.zip] at hp
    | cons b tb =>
      rcases List.mem_cons.mp hp with heq | hmem
      · refine ⟨0, by simp, by simp, ?_, ?_⟩ <;> simp [heq]
      · obtain ⟨k, hk, hk2, h1, h2⟩ := ih tb p hmem
        exact ⟨k + 1, Nat.succ_lt_succ hk, Nat.succ_lt_succ hk2, h1, h2⟩

/-- List-level join-id correctness: starting from an invariant-satisfying
state, two positions receive the same id exactly when they hold equal
remote joins. -/
theorem assignList_id_iff {α : Type} [DecidableEq α] (l : List α)
    (st : RemoteJoinCounter α) (hinv : CounterInv st) (p q : α × Nat)
    (hp : p ∈ l.zip (assignList l st).1) (hq : q ∈ l.zip (assignList l st).1) :
    p.2 = q.2 ↔ p.1 = q.1 := by
  obtain ⟨k, hk, hk2, hp1, hp2⟩ := mem_zip_index l _ p hp
  obtain ⟨m, hm, hm2, hq1, hq2⟩ := mem_zip_index l _ q hq
  have hlp : lookupId (assignList l st).2 p.1 = some p.2 := by
    rw [← hp1, ← hp2]
    exact assignList_lookup l st k hk hk2
  have hlq : lookupId (assignList l st).2 q.1 = some q.2 := by
    rw [← hq1, ← hq2]
    exact assignList_lookup l st m hm hm2
  have hinvF := assignList_inv l st hinv
  constructor
  · intro h2
    have hpmem := findAssigned_mem _ _ _ hlp
    have hqmem := findAssigned_mem _ _ _ hlq
    have := (hinvF.2 (p.1, p.2) hpmem (q.1, q.2) hqmem).mpr h2
    exact this
  · intro h1
    rw [h1] at hlp
    rw [hlp] at hlq
    exact (Option.some.injEq _ _ ▸ hlq : p.2 = q.2)

/-- assignList distributes over append, threading the state. -/
theorem assignList_append {α : Type} [DecidableEq α] (l1 l2 : List α) :
    ∀ st : RemoteJoinCounter α,
      assignList (l1 ++ l2) st =
        ((assignList l1 st).1 ++ (assignList l2 (assignList l1 st).2).1,
          (assignList l2 (assignList l1 st).2).2) := by
  induction l1 with
  | nil => intro st; simp [assignList]
  | cons a tl ih => intro st; simp [assignList, ih]

mutual

/-- Tree-level assignment is the list-level fold over the remote joins in
traversal order: same ids, same final state. -/
theorem assign_join_ids_remotes {α : Type} [DecidableEq α] (jl : JoinLocations α)
    (st : RemoteJoinCounter α) :
    remotesJL (assign_join_ids jl st).1 = (assignList (remotesJL jl) st).1 ∧
      (assign_join_ids jl st).2 = (assignList (remotesJL jl) st).2 := by
  cases jl with
  | mk ll =>
    have h := assignLocList_remotes ll st
    exact ⟨by simpa [assign_join_ids, remotesJL] using h.1,
      by simpa [assign_join_ids] using h.2⟩

/-- Entry-level version of assign_join_ids_remotes. -/
theorem assignLocList_remotes {α : Type} [DecidableEq α] (ll : LocList α)
    (st : RemoteJoinCounter α) :
    remotesLL (assignLocList ll st).1 = (assignList (remotesLL ll) st).1 ∧
      (assignLocList ll st).2 = (assignList (remotesLL ll) st).2 := by
  cases ll with
  | nil => exact ⟨rfl, rfl⟩
  | cons key node rest tail =>
    cases node with
    | localNode kind =>
      have hrest := assign_join_ids_remotes rest st
      have htail := assignLocList_remotes tail (assign_join_ids rest st).2
      rw [hrest.2] at htail
      constructor
      · simp only [assignLocList, remotesLL]
        simp [assignList_append, assignList, hrest.1, hrest.2, htail.1]
      · simp only [assignLocList, remotesLL]
        simp [assignList_append, assignList, hrest.2, htail.2]
    | remoteNode rj =>
      have hrest := assign_join_ids_remotes rest (assign_join_id rj st).2
      have htail := assignLocList_remotes tail
        (assign_join_ids rest (assign_join_id rj st).2).2
      rw [hrest.2] at htail
      constructor
      · simp only [assignLocList, remotesLL]
        simp [assignList_append, assignList, hrest.1, hrest.2, htail.1]
      · simp only [assignLocList, remotesLL]
        simp [assignList_append, assignList, hrest.2, htail.2]

end

/-- The pairs assign_with_join_ids produces are the zip of the remote
joins with the list-level assignment from the fresh state. -/
theorem assignedPairs_eq {α : Type} [DecidableEq α] (jl : JoinLocations α) :
    assignedPairs jl =
      (remotesJL jl).zip (assignList (remotesJL jl) RemoteJoinCounter.new).1 := by
  unfold assignedPairs
  rw [(assign_join_ids_remotes jl RemoteJoinCounter.new).1]

/-- C6: for any join tree, any two remote-join nodes receive the same
JoinId if and only if the RemoteJoin values are structurally equal; in
particular, equal JoinId implies structural equality. -/
theorem join_id_same_iff_structurally_equal {α : Type} [DecidableEq α]
    (jl : JoinLocations α) (p q : α × Nat)
    (hp : p ∈ assignedPairs jl) (hq : q ∈ assignedPairs jl) :
    p.2 = q.2 ↔ p.1 = q.1 := by
  rw [assignedPairs_eq] at hp hq
  refine assignList_id_iff (remotesJL jl) RemoteJoinCounter.new ?_ p q hp hq
  constructor
  · intro p hp; cases hp
  · intro p hp; cases hp

/-- Witness for C6 on the concrete c6_tree: the two occurrences of the
remote join J share an id, and J and K have equal ids exactly when they
are equal (they are not). -/
theorem join_id_same_iff_structurally_equal_witness :
    ("J", 0) ∈ assignedPairs c6_tree ∧ ("K", 1) ∈ assignedPairs c6_tree ∧
      ((0 : Nat) = 1 ↔ "J" = "K") :=
  ⟨by decide, by decide,
    join_id_same_iff_structurally_equal c6_tree ("J", 0) ("K", 1) (by decide) (by decide)⟩

mutual

/-- The id tree assign_join_ids produces is aligned with its input: same
keys in the same order, matching node kinds, recursively. -/
theorem assign_aligned_jl {α : Type} [DecidableEq α] (jl : JoinLocations α)
    (st : RemoteJoinCounter α) : alignedJL jl (assign_join_ids jl st).1 := by
  cases jl with
  | mk ll =>
    have h := assign_aligned_ll ll st
    simpa [assign_join_ids, alignedJL] using h

/-- Entry-level version of assign_aligned_jl. -/
theorem assign_aligned_ll {α : Type} [DecidableEq α] (ll : LocList α)
    (st : RemoteJoinCounter α) : alignedLL ll (assignLocList ll st).1 := by
  cases ll with
  | nil => simp [assignLocList, alignedLL]
  | cons key node rest tail =>
    cases node with
    | localNode kind =>
      exact ⟨rfl, rfl, assign_aligned_jl rest st,
        assign_aligned_ll tail (assign_join_ids rest st).2⟩
    | remoteNode rj =>
      exact ⟨rfl, trivial, assign_aligned_jl rest (assign_join_id rj st).2,
        assign_aligned_ll tail (assign_join_ids rest (assign_join_id rj st).2).2⟩

end

mutual

/-- Zipping an aligned id tree onto a join tree always succeeds. -/
theorem zip_ok_jl {α : Type} (jl : JoinLocations α) (ids : JoinLocations Nat)
    (h : alignedJL jl ids) : ∃ out, zip_with_join_ids jl ids = .ok out := by
  cases jl with
  | mk ll =>
    cases ids with
    | mk ll2 =>
      obtain ⟨out, hout⟩ := zip_ok_ll ll ll2 h
      exact ⟨.mk out, by simp [zip_with_join_ids, hout]⟩

/-- Entry-level version of zip_ok_jl. -/
theorem zip_ok_ll {α : Type} (ll : LocList α) (ids : LocList Nat)
    (h : alignedLL ll ids) : ∃ out, zipLocList ll ids = .ok out := by
  cases ll with
  | nil => exact ⟨.nil, rfl⟩
  | cons key node rest tail =>
    cases ids with
    | nil => cases h
    | cons key2 node2 rest2 tail2 =>
      obtain ⟨hk, hkm, hr, ht⟩ := h
      subst hk
      obtain ⟨outRest, houtRest⟩ := zip_ok_jl rest rest2 hr
      obtain ⟨outTail, houtTail⟩ := zip_ok_ll tail tail2 ht
      cases node with
      | localNode kind =>
        cases node2 with
        | remoteNode i => cases hkm
        | localNode kind2 =>
          have hkk : kind = kind2 := hkm
          subst hkk
          cases kind with
          | nestedData =>
            exact ⟨.cons key (.localNode .nestedData) outRest outTail,
              by simp [zipLocList, lookupRemoveKey, houtRest, houtTail]⟩
          | localRelationship =>
            exact ⟨.cons key (.localNode .localRelationship) outRest outTail,
              by simp [zipLocList, lookupRemoveKey, houtRest, houtTail]⟩
      | remoteNode rj =>
        cases node2 with
        | localNode kind2 => cases hkm
        | remoteNode i =>
          exact ⟨.cons key (.remoteNode (rj, i)) outRest outTail,
            by simp [zipLocList, lookupRemoveKey, houtRest, houtTail]⟩

end

/-- C10: for every join tree, the id tree produced by assign_join_ids has
exactly the same location keys and node kinds at every position (it is
aligned with its input), and zipping them back together always succeeds:
the missing-key and node-mismatch error branches of zip_with_join_ids are
unreachable inside assign_with_join_ids. -/
theorem assign_with_join_ids_total {α : Type} [DecidableEq α] (jl : JoinLocations α) :
    alignedJL jl (assign_join_ids jl RemoteJoinCounter.new).1 ∧
      ∃ out, assign_with_join_ids jl = .ok out := by
  have ha := assign_aligned_jl jl RemoteJoinCounter.new
  refine ⟨ha, ?_⟩
  unfold assign_with_join_ids
  exact zip_ok_jl jl _ ha

/-- Looking up after an insert hits the inserted value at its key and is
untouched elsewhere. -/
theorem findValue_insertField (fields : List (String × InputFieldEntry)) (key : String)
    (v : InputFieldEntry) (probe : String) :
    findValue (insertField fields key v) probe =
      if key = probe then some v else findValue fields probe := by
  induction fields with
  | nil =>
    by_cases h : key = probe <;> simp [insertField, findValue, h]
  | cons hd tl ih =>
    obtain ⟨k, v'⟩ := hd
    by_cases hk : k = key
    · subst hk
      by_cases hp : k = probe <;> simp [insertField, findValue, hp]
    · by_cases hp : k = probe
      · subst hp
        have hkp : ¬ key = k := fun hc => hk hc.symm
        simp [insertField, findValue, hk, hkp]
      · simp [insertField, findValue, hk, hp, ih]

/-- An insert of a non-relationship entry preserves the absence of
relationship entries. -/
theorem insertField_no_rel (fields : List (String × InputFieldEntry)) (key : String)
    (v : InputFieldEntry)
    (h : ∀ k e, findValue fields k = some e → e.isRelationshipField = false)
    (hv : v.isRelationshipField = false) :
    ∀ k e, findValue (insertField fields key v) k = some e →
      e.isRelationshipField = false := by
  intro k e hlook
  rw [findValue_insertField] at hlook
  by_cases hk : key = k
  · rw [if_pos hk] at hlook
    cases hlook
    exact hv
  · rw [if_neg hk] at hlook
    exact h k e hlook

/-- The scalar-fields loop inserts only comparison entries, so it
preserves the absence of relationship entries. -/
theorem scalarFieldsLoop_no_rel (helpers : SchemaBuildHelpers)
    (obe : ObjectBooleanExpressionType) (sfs : List (String × ComparisonExprInfo)) :
    ∀ fields fields3, scalarFieldsLoop helpers obe sfs fields = .ok fields3 →
      (∀ k e, findValue fields k = some e → e.isRelationshipField = false) →
      ∀ k e, findValue fields3 k = some e → e.isRelationshipField = false := by
  induction sfs with
  | nil =>
    intro fields fields3 hok h
    cases hok
    exact h
  | cons hd tl ih =>
    intro fields fields3 hok h
    obtain ⟨field_name, comparison⟩ := hd
    cases hname : helpers.mk_name field_name with
    | error e => rw [show scalarFieldsLoop helpers obe ((field_name, comparison) :: tl) fields
        = .error e by simp [scalarFieldsLoop, hname]] at hok; cases hok
    | ok gname =>
      cases hcomp : helpers.scalar_comparison_type comparison with
      | error e => rw [show scalarFieldsLoop helpers obe ((field_name, comparison) :: tl) fields
          = .error e by simp [scalarFieldsLoop, hname, hcomp]] at hok; cases hok
      | ok reg =>
        rw [show scalarFieldsLoop helpers obe ((field_name, comparison) :: tl) fields
            = scalarFieldsLoop helpers obe tl
              (insertField fields gname
                { argument := .comparisonField field_name obe.object_type,
                  type_name := reg }) by simp [scalarFieldsLoop, hname, hcomp]] at hok
        exact ih _ _ hok (insertField_no_rel fields gname _ h rfl)

/-- The _not/_and/_or operator fields contain no relationship entry. -/
theorem operatorFields_no_rel (info : BooleanExpressionInfo) (type_name : String) :
    ∀ k e,
      findValue
        (insertField (insertField (insertField []
            info.graphql_config.not_operator_name
            { argument := .notOp, type_name := type_name })
          info.graphql_config.and_operator_name
          { argument := .andOp, type_name := type_name })
        info.graphql_config.or_operator_name
        { argument := .orOp, type_name := type_name }) k = some e →
      e.isRelationshipField = false := by
  intro k e hlook
  by_cases h1 : info.graphql_config.or_operator_name = k
  · rw [findValue_insertField, if_pos h1] at hlook
    cases hlook
    rfl
  · rw [findValue_insertField, if_neg h1] at hlook
    by_cases h2 : info.graphql_config.and_operator_name = k
    · rw [findValue_insertField, if_pos h2] at hlook
      cases hlook
      rfl
    · rw [findValue_insertField, if_neg h2] at hlook
      by_cases h3 : info.graphql_config.not_operator_name = k
      · rw [findValue_insertField, if_pos h3] at hlook
        cases hlook
        rfl
      · rw [findValue_insertField, if_neg h3] at hlook
        simp [findValue] at hlook

/-- Every relationship the loop completes over had a successful filter
step. -/
theorem relationshipsLoop_ok_each (gds : Gds) (helpers : SchemaBuildHelpers)
    (obe : ObjectBooleanExpressionType) (l : List (String × RelationshipInfo)) :
    ∀ fields fields2, relationshipsLoop gds helpers obe l fields = .ok fields2 →
      ∀ p ∈ l, ∃ o, relationship_filter_field gds helpers obe p.2 = .ok o := by
  induction l with
  | nil => intro fields fields2 hok p hp; cases hp
  | cons hd tl ih =>
    intro fields fields2 hok p hp
    obtain ⟨rel_name, relationship⟩ := hd
    cases hf : relationship_filter_field gds helpers obe relationship with
    | error e =>
      rw [show relationshipsLoop gds helpers obe ((rel_name, relationship) :: tl) fields
          = .error e by simp [relationshipsLoop, hf]] at hok
      cases hok
    | ok o =>
      rcases List.mem_cons.mp hp with heq | hmem
      · subst heq
        exact ⟨o, hf⟩
      · cases o with
        | none =>
          rw [show relationshipsLoop gds helpers obe ((rel_name, relationship) :: tl) fields
              = relationshipsLoop gds helpers obe tl fields by
            simp [relationshipsLoop, hf]] at hok
          exact ih _ _ hok p hmem
        | some entry =>
          rw [show relationshipsLoop gds helpers obe ((rel_name, relationship) :: tl) fields
              = relationshipsLoop gds helpers obe tl (insertField fields rel_name entry) by
            simp [relationshipsLoop, hf]] at hok
          exact ih _ _ hok p hmem

/-- A key not named by any remaining relationship is untouched by the
loop. -/
theorem relationshipsLoop_lookup_notin (gds : Gds) (helpers : SchemaBuildHelpers)
    (obe : ObjectBooleanExpressionType) (l : List (String × RelationshipInfo))
    (rel_name : String) (hk : ∀ p ∈ l, p.1 ≠ rel_name) :
    ∀ fields fields2, relationshipsLoop gds helpers obe l fields = .ok fields2 →
      findValue fields2 rel_name = findValue fields rel_name := by
  induction l with
  | nil =>
    intro fields fields2 hok
    cases hok
    rfl
  | cons hd tl ih =>
    intro fields fields2 hok
    obtain ⟨b, r⟩ := hd
    have hb : b ≠ rel_name := hk _ (List.mem_cons_self _ _)
    have hktl := fun p hp => hk p (List.mem_cons_of_mem _ hp)
    cases hf : relationship_filter_field gds helpers obe r with
    | error e =>
      rw [show relationshipsLoop gds helpers obe ((b, r) :: tl) fields = .error e by
        simp [relationshipsLoop, hf]] at hok
      cases hok
    | ok o =>
      cases o with
      | none =>
        rw [show relationshipsLoop gds helpers obe ((b, r) :: tl) fields
            = relationshipsLoop gds helpers obe tl fields by
          simp [relationshipsLoop, hf]] at hok
        exact ih hktl _ _ hok
      | some entry =>
        rw [show relationshipsLoop gds helpers obe ((b, r) :: tl) fields
            = relationshipsLoop gds helpers obe tl (insertField fields b entry) by
          simp [relationshipsLoop, hf]] at hok
        rw [ih hktl _ _ hok, findValue_insertField, if_neg hb]

/-- What the loop leaves at the key of a given relationship (keys
distinct): its own filter entry if the step produced one, the incoming
value otherwise. -/
theorem relationshipsLoop_lookup (gds : Gds) (helpers : SchemaBuildHelpers)
    (obe : ObjectBooleanExpressionType) (l : List (String × RelationshipInfo))
    (hnodup : (l.map Prod.fst).Nodup) (rel_name : String) (relationship : RelationshipInfo)
    (hmem : (rel_name, relationship) ∈ l) :
    ∀ fields fields2, relationshipsLoop gds helpers obe l fields = .ok fields2 →
      (relationship_filter_field gds helpers obe relationship = .ok none →
        findValue fields2 rel_name = findValue fields rel_name) ∧
      (∀ entry, relationship_filter_field gds helpers obe relationship = .ok (some entry) →
        findValue fields2 rel_name = some entry) := by
  induction l with
  | nil => intro fields fields2 hok; cases hmem
  | cons hd tl ih =>
    intro fields fields2 hok
    obtain ⟨b, r⟩ := hd
    have hnodup2 : (tl.map Prod.fst).Nodup := (List.nodup_cons.mp hnodup).2
    have hbnot : b ∉ tl.map Prod.fst := (List.nodup_cons.mp hnodup).1
    rcases List.mem_cons.mp hmem with heq | hmem2
    · injection heq with hb hr
      subst hb
      subst hr
      have hknot : ∀ p ∈ tl, p.1 ≠ rel_name := by
        intro p hp hc
        exact hbnot (hc ▸ List.mem_map_of_mem Prod.fst hp)
      constructor
      · intro hnone
        rw [show relationshipsLoop gds helpers obe ((rel_name, relationship) :: tl) fields
            = relationshipsLoop gds helpers obe tl fields by
          simp [relationshipsLoop, hnone]] at hok
        exact relationshipsLoop_lookup_notin gds helpers obe tl rel_name hknot _ _ hok
      · intro entry hsome
        rw [show relationshipsLoop gds helpers obe ((rel_name, relationship) :: tl) fields
            = relationshipsLoop gds helpers obe tl (insertField fields rel_name entry) by
          simp [relationshipsLoop, hsome]] at hok
        rw [relationshipsLoop_lookup_notin gds helpers obe tl rel_name hknot _ _ hok]
        rw [findValue_insertField, if_pos rfl]
    · have hb : b ≠ rel_name := by
        intro hc
        subst hc
        exact hbnot (List.mem_map_of_mem Prod.fst hmem2)
      cases hf : relationship_filter_field gds helpers obe r with
      | error e =>
        rw [show relationshipsLoop gds helpers obe ((b, r) :: tl) fields = .error e by
          simp [relationshipsLoop, hf]] at hok
        cases hok
      | ok o =>
        cases o with
        | none =>
          rw [show relationshipsLoop gds helpers obe ((b, r) :: tl) fields
              = relationshipsLoop gds helpers obe tl fields by
            simp [relationshipsLoop, hf]] at hok
          exact ih hnodup2 hmem2 _ _ hok
        | some entry =>
          rw [show relationshipsLoop gds helpers obe ((b, r) :: tl) fields
              = relationshipsLoop gds helpers obe tl (insertField fields b entry) by
            simp [relationshipsLoop, hf]] at hok
          have := ih hnodup2 hmem2 _ _ hok
          refine ⟨fun hnone => ?_, this.2⟩
          rw [this.1 hnone, findValue_insertField, if_neg hb]

/-- The per-relationship filter step produces an entry exactly when the
C7 conditions hold, and any entry it produces is the relationship filter
field of the target model. -/
theorem relationship_filter_field_spec (gds : Gds) (helpers : SchemaBuildHelpers)
    (obe : ObjectBooleanExpressionType) (relationship : RelationshipInfo)
    (model_name : QualifiedName) (target_model : ModelWithPermissions)
    (o : Option InputFieldEntry)
    (htarget : relationship.target = .modelTarget model_name)
    (hmodel : findValue gds.models model_name = some target_model)
    (hok : relationship_filter_field gds helpers obe relationship = .ok o) :
    (o.isSome = true ↔ relationshipConditions helpers obe relationship target_model) ∧
      (∀ e, o = some e →
        e.argument = .relationshipField relationship.name target_model.name) := by
  cases hrep : get_object_type_representation gds target_model.data_type with
  | error e =>
    rw [show relationship_filter_field gds helpers obe relationship = .error e by
      simp [relationship_filter_field, htarget, hmodel, hrep]] at hok
    cases hok
  | ok rep =>
    cases hdc : obe.data_connector with
    | none =>
      rw [show relationship_filter_field gds helpers obe relationship = .ok none by
        simp [relationship_filter_field, htarget, hmodel, hrep, hdc]] at hok
      injection hok with hoeq
      subst hoeq
      refine ⟨⟨fun hc => by simp at hc, fun hc => ?_⟩, fun e he => by cases he⟩
      obtain ⟨ldc0, ts0, tms0, h1, _⟩ := hc
      rw [hdc] at h1
      cases h1
    | some ldc =>
      cases hsrc : target_model.source with
      | none =>
        rw [show relationship_filter_field gds helpers obe relationship = .ok none by
          simp [relationship_filter_field, htarget, hmodel, hrep, hdc, hsrc]] at hok
        injection hok with hoeq
        subst hoeq
        refine ⟨⟨fun hc => by simp at hc, fun hc => ?_⟩, fun e he => by cases he⟩
        obtain ⟨ldc0, ts0, tms0, h1, h2, _⟩ := hc
        rw [hsrc] at h2
        cases h2
      | some ts =>
        cases hfms : helpers.from_model_source ts relationship with
        | error e =>
          rw [show relationship_filter_field gds helpers obe relationship = .error e by
            simp [relationship_filter_field, htarget, hmodel, hrep, hdc, hsrc, hfms]] at hok
          cases hok
        | ok tms =>
          cases hcat : relationship_execution_category ldc.link ts.data_connector
              tms.capabilities with
          | remoteForEach =>
            rw [show relationship_filter_field gds helpers obe relationship = .ok none by
              simp [relationship_filter_field, htarget, hmodel, hrep, hdc, hsrc, hfms,
                hcat]] at hok
            injection hok with hoeq
            subst hoeq
            refine ⟨⟨fun hc => by simp at hc, fun hc => ?_⟩, fun e he => by cases he⟩
            obtain ⟨ldc0, ts0, tms0, h1, h2, h3, h4, _⟩ := hc
            rw [hdc] at h1
            injection h1 with h1
            subst h1
            rw [hsrc] at h2
            injection h2 with h2
            subst h2
            rw [hfms] at h3
            injection h3 with h3
            subst h3
            rw [hcat] at h4
            cases h4
          | localCategory =>
            by_cases hname : ts.data_connector.name = ldc.name
            · cases hfe : target_model.filter_expression_type.bind (fun t => t.graphql) with
              | none =>
                rw [show relationship_filter_field gds helpers obe relationship = .ok none by
                  simp [relationship_filter_field, htarget, hmodel, hrep, hdc, hsrc, hfms,
                    hcat, hname, hfe]] at hok
                injection hok with hoeq
                subst hoeq
                refine ⟨⟨fun hc => by simp at hc, fun hc => ?_⟩, fun e he => by cases he⟩
                obtain ⟨ldc0, ts0, tms0, h1, h2, h3, h4, h5, h6⟩ := hc
                rw [hfe] at h6
                simp at h6
              | some tfe =>
                cases hann : helpers.relationship_namespace_annotations target_model
                    relationship with
                | error e =>
                  rw [show relationship_filter_field gds helpers obe relationship
                      = .error e by
                    simp [relationship_filter_field, htarget, hmodel, hrep, hdc, hsrc,
                      hfms, hcat, hname, hfe, hann]] at hok
                  cases hok
                | ok u =>
                  cases u
                  rw [show relationship_filter_field gds helpers obe relationship
                      = .ok (some
                        { argument := .relationshipField relationship.name
                            target_model.name,
                          type_name := tfe.type_name }) by
                    simp [relationship_filter_field, htarget, hmodel, hrep, hdc, hsrc,
                      hfms, hcat, hname, hfe, hann]] at hok
                  injection hok with hoeq
                  subst hoeq
                  constructor
                  · constructor
                    · intro hs
                      exact ⟨ldc, ts, tms, hdc, hsrc, hfms, hcat, hname, by rw [hfe]; rfl⟩
                    · intro hc
                      rfl
                  · intro e he
                    injection he with heq
                    subst heq
                    rfl
            · rw [show relationship_filter_field gds helpers obe relationship = .ok none by
                simp [relationship_filter_field, htarget, hmodel, hrep, hdc, hsrc, hfms,
                  hcat, hname]] at hok
              injection hok with hoeq
              subst hoeq
              refine ⟨⟨fun hc => by simp at hc, fun hc => ?_⟩, fun e he => by cases he⟩
              obtain ⟨ldc0, ts0, tms0, h1, h2, h3, h4, h5, h6⟩ := hc
              rw [hdc] at h1
              injection h1 with h1
              subst h1
              rw [hsrc] at h2
              injection h2 with h2
              subst h2
              exact (hname h5).elim

/-- C7: in a successfully built boolean-expression input object, a
relationship (with a model target) appears as a relationship filter field
exactly when the source boolean expression has a data connector, the
target model has a source, the relationship classifies as Local, the
target connector name equals the source connector name, and the target
model has a filter-expression type with a graphql name; otherwise the
relationship filter field is absent. -/
theorem boolean_expression_relationship_field_iff (gds : Gds)
    (helpers : SchemaBuildHelpers) (type_name : String) (gds_type_name : QualifiedName)
    (obe : ObjectBooleanExpressionType) (info : BooleanExpressionInfo)
    (rep : ObjectTypeRepresentation) (fields : List (String × InputFieldEntry))
    (rel_name : String) (relationship : RelationshipInfo) (model_name : QualifiedName)
    (target_model : ModelWithPermissions)
    (hobe : findValue gds.object_boolean_expression_types gds_type_name = some obe)
    (hgql : obe.graphql = some info)
    (hrep : get_object_type_representation gds obe.object_type = .ok rep)
    (hnodup : (rep.relationships.map Prod.fst).Nodup)
    (hmem : (rel_name, relationship) ∈ rep.relationships)
    (htarget : relationship.target = .modelTarget model_name)
    (hmodel : findValue gds.models model_name = some target_model)
    (hbuild : build_boolean_expression_input_schema gds helpers type_name gds_type_name
      = .ok fields) :
    (∃ e, findValue fields rel_name = some e ∧ e.isRelationshipField = true) ↔
      relationshipConditions helpers obe relationship target_model := by
  simp only [build_boolean_expression_input_schema, hobe, hgql, hrep] at hbuild
  cases hscal : scalarFieldsLoop helpers obe info.scalar_fields
      (insertField (insertField (insertField []
          info.graphql_config.not_operator_name
          { argument := .notOp, type_name := type_name })
        info.graphql_config.and_operator_name
        { argument := .andOp, type_name := type_name })
      info.graphql_config.or_operator_name
      { argument := .orOp, type_name := type_name }) with
  | error e =>
    rw [hscal] at hbuild
    simp at hbuild
  | ok fields3 =>
    rw [hscal] at hbuild
    simp only at hbuild
    have hnorel : ∀ k e, findValue fields3 k = some e → e.isRelationshipField = false :=
      scalarFieldsLoop_no_rel helpers obe info.scalar_fields _ _ hscal
        (operatorFields_no_rel info type_name)
    obtain ⟨o, ho⟩ := relationshipsLoop_ok_each gds helpers obe rep.relationships _ _
      hbuild (rel_name, relationship) hmem
    have hspec := relationship_filter_field_spec gds helpers obe relationship model_name
      target_model o htarget hmodel ho
    have hlook := relationshipsLoop_lookup gds helpers obe rep.relationships hnodup
      rel_name relationship hmem _ _ hbuild
    constructor
    · rintro ⟨e, he, herel⟩
      cases o with
      | none =>
        rw [hlook.1 ho] at he
        rw [hnorel _ _ he] at herel
        cases herel
      | some entry =>
        exact hspec.1.mp rfl
    · intro hc
      have hsome : o.isSome = true := hspec.1.mpr hc
      cases o with
      | none => cases hsome
      | some entry =>
        refine ⟨entry, hlook.2 entry ho, ?_⟩
        rw [InputFieldEntry.isRelationshipField, hspec.2 entry rfl]

/-- Witness for C7 on the concrete w7 metadata: the articles relationship
satisfies all conditions and its filter field is present. -/
theorem boolean_expression_relationship_field_iff_witness :
    (∃ e, findValue w7_fields "articles" = some e ∧ e.isRelationshipField = true) ↔
      relationshipConditions w7_helpers w7_obe w7_rel w7_model :=
  boolean_expression_relationship_field_iff w7_gds w7_helpers "Author_bool_exp"
    (qn "Author_bool_exp") w7_obe w7_info w7_rep w7_fields "articles" w7_rel
    (qn "Articles") w7_model (by decide) rfl (by decide) (by decide) (by decide) rfl
    (by decide) (by decide)

end Engine
